import Mathlib

/-!
# Verification of the socket.io poker table engine

A shallow embedding of the server-side table engine from `src/server.js`:
the 5–7 card hand evaluator, the score comparator, the betting action
handler, the side-pot payout distribution, blind posting at hand start,
the per-viewer state projection and the lobby `setStartingStack` handler.

JavaScript numbers are modelled as `Int` (every code path handled here
manipulates integer chip counts; the handlers validate integrality with
`Number.isInteger` before using client-supplied amounts, which we model
as `Option Int` with `none` for a non-integer payload).  The mutable
singleton `state` is threaded explicitly as a `Table` value.  `throw`
(used only for deck-invariant violations) is modelled with `Except`.
`sendError` emissions are collected as a list of `(socketId, message)`
pairs.  Randomness (`shuffleDeck`) is abstracted by passing the shuffled
deck to `startNextHand` as a parameter; the source's `assertDeckShape`
check is applied to it exactly as in the code.
-/

namespace Poker

/-- A card: rank character (`2`–`9`, `T`, `J`, `Q`, `K`, `A`) and suit
character (`S`, `H`, `D`, `C`), as in the two-character wire codes. -/
structure Card where
  rank : Char
  suit : Char
deriving DecidableEq

/-- `rankValue` from server.js: digit chars map to their value, `T`=10,
`J`=11, `Q`=12, `K`=13, anything else (i.e. `A`) = 14. -/
def rankValue (rank : Char) : Nat :=
  if '2' ≤ rank ∧ rank ≤ '9' then rank.toNat - '0'.toNat
  else if rank = 'T' then 10
  else if rank = 'J' then 11
  else if rank = 'Q' then 12
  else if rank = 'K' then 13
  else 14

/-- The valid rank characters, in deck-building order. -/
def rankChars : List Char := ['2', '3', '4', '5', '6', '7', '8', '9', 'T', 'J', 'Q', 'K', 'A']

/-- The valid suit characters, in deck-building order. -/
def suitChars : List Char := ['S', 'H', 'D', 'C']

/-- A card matching the grammar `^[2-9TJQKA][SHDC]$`. -/
def validCard (c : Card) : Prop := c.rank ∈ rankChars ∧ c.suit ∈ suitChars

instance (c : Card) : Decidable (validCard c) := by unfold validCard; infer_instance

/-- A rank tuple `(category, tiebreaks)` as produced by
`evaluateFiveCardHand`: category 0–8, tiebreak ranks high-to-low. -/
structure Score where
  category : Nat
  ranks : List Nat
deriving DecidableEq

/-- Descending order on naturals, for the JS `.sort((a, b) => b - a)`
calls (ties are equal values, so which stable order is used is moot). -/
def descNat (a b : Nat) : Prop := b ≤ a

instance : DecidableRel descNat := fun a b => by unfold descNat; infer_instance

/-- The group comparator of `evaluateFiveCardHand`:
`(l, r) => r.count - l.count || r.rank - l.rank`, i.e. descending by
count and then descending by rank (group keys are distinct ranks, so
this determines the order completely). -/
def groupLE (l r : Nat × Nat) : Prop := r.2 < l.2 ∨ (r.2 = l.2 ∧ r.1 ≤ l.1)

instance : DecidableRel groupLE := fun l r => by unfold groupLE; infer_instance

/-- `getStraightHigh` from server.js: on the descending-sorted rank list,
take the distinct ranks; five distinct ranks spanning exactly 4 give a
straight with the top rank high, the wheel `[14,5,4,3,2]` gives 5,
otherwise 0.  (JS `unique[0] - unique[4] === 4` and the `Nat` truncated
subtraction agree: on a descending list the difference is nonnegative.) -/
def getStraightHigh (sortedRanksDesc : List Nat) : Nat :=
  let unique := sortedRanksDesc.dedup
  if unique.length = 5 then
    if unique.getD 0 0 - unique.getD 4 0 = 4 then unique.getD 0 0
    else if unique = [14, 5, 4, 3, 2] then 5
    else 0
  else 0

/-- `evaluateFiveCardHand` from server.js: sort ranks descending, check
monochrome suits and straight shape, build the count-then-rank sorted
multiplicity groups, and resolve the category by the standard precedence.
`groups.getD 1 (0,0)` models the (in-practice in-bounds) `groups[1]`
access, and the two-pair kicker models `groups.find(count==1).rank`. -/
def evaluateFiveCardHand (cards : List Card) : Score :=
  let ranks := (cards.map (fun c => rankValue c.rank)).insertionSort descNat
  let suits := cards.map Card.suit
  let isFlush := suits.all (fun s => s == suits.headD 'S')
  let straightHigh := getStraightHigh ranks
  let groups := ((ranks.dedup).map (fun r => (r, ranks.count r))).insertionSort groupLE
  let g0 := groups.getD 0 (0, 0)
  let g1 := groups.getD 1 (0, 0)
  if isFlush ∧ 0 < straightHigh then ⟨8, [straightHigh]⟩
  else if g0.2 = 4 then ⟨7, [g0.1, g1.1]⟩
  else if g0.2 = 3 ∧ g1.2 = 2 then ⟨6, [g0.1, g1.1]⟩
  else if isFlush then ⟨5, ranks⟩
  else if 0 < straightHigh then ⟨4, [straightHigh]⟩
  else if g0.2 = 3 then
    ⟨3, g0.1 :: ((groups.filter (fun g => g.2 == 1)).map Prod.fst).insertionSort descNat⟩
  else if g0.2 = 2 ∧ g1.2 = 2 then
    ⟨2, [max g0.1 g1.1, min g0.1 g1.1, ((groups.find? (fun g => g.2 == 1)).map Prod.fst).getD 0]⟩
  else if g0.2 = 2 then
    ⟨1, g0.1 :: ((groups.filter (fun g => g.2 == 1)).map Prod.fst).insertionSort descNat⟩
  else ⟨0, ranks⟩

/-- Tail of the `compareScores` loop once the left list is exhausted:
every left position reads as 0 against the remaining right entries. -/
def cmpZeros : List Nat → Int
  | [] => 0
  | r :: rs => if 0 ≠ r then (0 : Int) - r else cmpZeros rs

/-- The tiebreak-list comparison loop of `compareScores`: walk both lists
in step, treating a missing position as 0, and return the first nonzero
signed difference. -/
def cmpRanks : List Nat → List Nat → Int
  | [], rs => cmpZeros rs
  | l :: ls, [] => if l ≠ 0 then (l : Int) - 0 else cmpRanks ls []
  | l :: ls, r :: rs => if l ≠ r then (l : Int) - r else cmpRanks ls rs

/-- `compareScores` from server.js: category difference first, then the
padded lexicographic tiebreak comparison; the sign is the verdict. -/
def compareScores (left right : Score) : Int :=
  if left.category ≠ right.category then (left.category : Int) - right.category
  else cmpRanks left.ranks right.ranks

/-- The 5-card subset enumeration of `pickCards` inside
`evaluateBestKnownHand`: subsets containing the head first (in the order
induced by the remaining cards), then subsets avoiding it. -/
def combinations {α : Type} : Nat → List α → List (List α)
  | 0, _ => [[]]
  | _ + 1, [] => []
  | k + 1, x :: xs => ((combinations k xs).map (x :: ·)) ++ combinations (k + 1) xs

/-- The best-score accumulator of `evaluateBestKnownHand`: replace the
running best only on a strictly greater comparison. -/
def updateBest (best : Option Score) (s : Score) : Option Score :=
  match best with
  | none => some s
  | some b => if 0 < compareScores s b then some s else some b

/-- `evaluateBestKnownHand` from server.js: reject card counts outside
5–7 (the source throws; we return `none`), otherwise fold the strict-max
accumulator over the 5-card subsets in enumeration order. -/
def evaluateBestKnownHand (cards : List Card) : Option Score :=
  if cards.length < 5 ∨ 7 < cards.length then none
  else (combinations 5 cards).foldl (fun best sel => updateBest best (evaluateFiveCardHand sel)) none

/-- `evaluateBestHand` from server.js: exactly 7 cards, then defer. -/
def evaluateBestHand (cards : List Card) : Option Score :=
  if cards.length ≠ 7 then none else evaluateBestKnownHand cards

/-! ## The table state

The mutable server singleton `state` and its player records, threaded
explicitly.  Socket ids are modelled as `Nat`; log entries keep only the
message text (the source adds a wall-clock timestamp and a random id,
which have no bearing on any engine rule).  `updatePlayer` models an
in-place mutation of the player object found by id (the engine's seat
lists have distinct ids; claims whose proof needs that carry a `Nodup`
hypothesis). -/

inductive Phase
  | lobby | preflop | flop | turn | river | showdown
deriving DecidableEq

/-- A seat record, as produced by `createPlayer` in server.js. -/
structure Player where
  id : Nat
  name : String
  chips : Int
  isAdmin : Bool
  disconnected : Bool
  inHand : Bool
  folded : Bool
  allIn : Bool
  holeCards : List Card
  betThisRound : Int
  totalContribution : Int
  acted : Bool
deriving DecidableEq

/-- The parts of the `lastShowdown` snapshot the engine state keeps:
whether the hand ended by fold, and the positive payout rows. -/
structure ShowdownSnap where
  isFold : Bool
  payouts : List (Nat × Int)
deriving DecidableEq

/-- The server singleton `state`. -/
structure Table where
  players : List Player
  startingStack : Int
  smallBlind : Int
  bigBlind : Int
  gameStarted : Bool
  handInProgress : Bool
  handNumber : Int
  phase : Phase
  deck : List Card
  burnCards : List Card
  seenCards : List Card
  communityCards : List Card
  pot : Int
  currentBet : Int
  lastRaiseSize : Int
  currentTurnId : Option Nat
  dealerId : Option Nat
  smallBlindId : Option Nat
  bigBlindId : Option Nat
  logs : List String
  lastShowdown : Option ShowdownSnap
deriving DecidableEq

def findPlayer (t : Table) (pid : Nat) : Option Player :=
  t.players.find? (fun p => p.id == pid)

def getConnectedPlayers (t : Table) : List Player :=
  t.players.filter (fun p => !p.disconnected)

def isPlayerActionable (p : Player) : Bool :=
  p.inHand && !p.folded && !p.allIn

def countRemainingInHand (t : Table) : Nat :=
  (t.players.filter (fun p => p.inHand && !p.folded)).length

def isBettingRoundComplete (t : Table) : Bool :=
  let actionables := t.players.filter isPlayerActionable
  if actionables.length = 0 then true
  else actionables.all (fun p => p.acted && p.betThisRound == t.currentBet)

def getMinRaiseTo (t : Table) : Int :=
  if t.currentBet = 0 then t.bigBlind else t.currentBet + t.lastRaiseSize

/-- `addLog`: append, then keep only the last `MAX_LOGS = 40` entries. -/
def addLog (t : Table) (message : String) : Table :=
  let logs := t.logs ++ [message]
  { t with logs := if 40 < logs.length then logs.drop (logs.length - 40) else logs }

/-- In-place mutation of the player object with the given id. -/
def updatePlayer (t : Table) (pid : Nat) (f : Player → Player) : Table :=
  { t with players := t.players.map (fun p => if p.id = pid then f p else p) }

/-- `commitBet`: move `amount` from the player's stack into their street
bet, whole-hand contribution and the pot; nonpositive amounts no-op. -/
def commitBet (t : Table) (pid : Nat) (amount : Int) : Table :=
  if amount ≤ 0 then t
  else
    let t1 := updatePlayer t pid (fun p =>
      { p with chips := p.chips - amount, betThisRound := p.betThisRound + amount,
               totalContribution := p.totalContribution + amount })
    { t1 with pot := t1.pot + amount }

/-- `getRingOrder`: the seat list starting just after `fromId` (or from
seat 0 when absent), wrapping; `players[(startIndex + i) % n]` for
`i = 1..n` is exactly a rotation. -/
def getRingOrder (t : Table) (fromId : Option Nat) : List Player :=
  if t.players.isEmpty then []
  else
    let startIdx : Nat :=
      match fromId with
      | none => 0
      | some fid =>
        match t.players.findIdx? (fun p => p.id == fid) with
        | none => 0
        | some j => j + 1
    t.players.rotate startIdx

def getNextPlayer (t : Table) (fromId : Option Nat) (pred : Player → Bool) : Option Player :=
  (getRingOrder t fromId).find? pred

def orderBySeatAfterDealer (t : Table) (playerIds : List Nat) : List Nat :=
  (((getRingOrder t t.dealerId).map (fun p => p.id)).filter (fun i => playerIds.contains i))

/-- `drawCard`: pop the top (last) deck entry, failing on an empty deck
or a duplicate against `seenCards`. -/
def drawCard (t : Table) : Except String (Card × Table) :=
  match t.deck.getLast? with
  | none => throw "Deck is empty while drawing."
  | some card =>
    let t1 := { t with deck := t.deck.dropLast }
    if card ∈ t1.seenCards then throw "Duplicate card detected while drawing."
    else pure (card, { t1 with seenCards := card :: t1.seenCards })

def burnTopCard (t : Table) : Except String Table := do
  let (c, t1) ← drawCard t
  pure (addLog { t1 with burnCards := t1.burnCards ++ [c] } "Dealer burns a card.")

/-! ## Showdown payouts (`calculatePayouts` and friends) -/

/-- Ascending order on `Int`, for the `(a, b) => a - b` level sort. -/
def ascInt (a b : Int) : Prop := a ≤ b

instance : DecidableRel ascInt := fun a b => by unfold ascInt; infer_instance

instance : IsTotal Int ascInt := ⟨fun a b => le_total a b⟩

instance : IsTrans Int ascInt := ⟨fun _ _ _ hab hbc => le_trans hab hbc⟩

/-- Descending order on payout rows by amount, for the snapshot sort. -/
def payoutDesc (a b : Nat × Int) : Prop := b.2 ≤ a.2

instance : DecidableRel payoutDesc := fun a b => by unfold payoutDesc; infer_instance

/-- Players with a positive whole-hand contribution (folded included). -/
def contributorsOf (t : Table) : List Player :=
  t.players.filter (fun p => 0 < p.totalContribution)

/-- The distinct positive contribution levels, ascending. -/
def levelsOf (t : Table) : List Int :=
  (((contributorsOf t).map (fun p => p.totalContribution)).dedup).insertionSort ascInt

/-- `payoutMap.set(id, payoutMap.get(id) + d)` on the association list. -/
def bump (m : List (Nat × Int)) (k : Nat) (d : Int) : List (Nat × Int) :=
  m.map (fun kv => if kv.1 = k then (kv.1, kv.2 + d) else kv)

/-- The total of a payout map's values. -/
def sumVals (m : List (Nat × Int)) : Int := (m.map (fun kv => kv.2)).sum

/-- One pass of the winner-selection loop: keep the strictly best score
seen so far and every player tying it.  (Source reads
`scoreById.get(player.id)` directly; every eligible player was filtered
to have a score, so the `none` fallback is dead.) -/
def selectStep (scoreById : List (Nat × Score)) (acc : Option Score × List Player)
    (p : Player) : Option Score × List Player :=
  match List.lookup p.id scoreById with
  | none => acc
  | some score =>
    match acc.1 with
    | none => (some score, [p])
    | some b =>
      if 0 < compareScores score b then (some score, [p])
      else if compareScores score b = 0 then (acc.1, acc.2 ++ [p])
      else acc

/-- The winner-selection loop of `calculatePayouts` over the eligible
contenders. -/
def selectWinners (scoreById : List (Nat × Score)) (eligible : List Player) :
    Option Score × List Player :=
  eligible.foldl (selectStep scoreById) (none, [])

/-- Remainder chips, one at a time, to `orderedWinnerIds[i % n]`. -/
def distributeRemainder (t : Table) (m : List (Nat × Int)) (winnerIds : List Nat)
    (remainder : Nat) : List (Nat × Int) :=
  let orderedWinnerIds := orderBySeatAfterDealer t winnerIds
  (List.range remainder).foldl
    (fun acc i => bump acc (orderedWinnerIds.getD (i % orderedWinnerIds.length) 0) 1) m

/-- One side pot: even floor share to every winner, then the ordered
remainder rule.  `sidePot` is positive and `winners` nonempty at every
call site, so `Math.floor(sidePot / n)` and `sidePot % n` are the `Nat`
division and remainder of `sidePot.toNat`. -/
def distributePot (t : Table) (m : List (Nat × Int)) (winners : List Player)
    (sidePot : Int) : List (Nat × Int) :=
  let evenShare : Int := ((sidePot.toNat / winners.length : Nat) : Int)
  let remainder : Nat := sidePot.toNat % winners.length
  let m1 := winners.foldl (fun acc w => bump acc w.id evenShare) m
  if 0 < remainder then distributeRemainder t m1 (winners.map (fun p => p.id)) remainder
  else m1

/-- The body of the `calculatePayouts` level loop: build the marginal
side pot of `level` over the previous level `acc.1`, award it to the
best eligible contenders, and carry `level` forward. -/
def payoutStep (t : Table) (scoreById : List (Nat × Score))
    (acc : Int × List (Nat × Int)) (level : Int) : Int × List (Nat × Int) :=
  let contributors := contributorsOf t
  let involved := contributors.filter (fun p => level ≤ p.totalContribution)
  let sidePot := (level - acc.1) * involved.length
  if sidePot ≤ 0 then (level, acc.2)
  else
    let eligibleWinners := involved.filter (fun p => (List.lookup p.id scoreById).isSome)
    if eligibleWinners.isEmpty then (level, acc.2)
    else
      let winners := (selectWinners scoreById eligibleWinners).2
      if winners.isEmpty then (level, acc.2)
      else (level, distributePot t acc.2 winners sidePot)

/-- `calculatePayouts` from server.js: walk the ascending contribution
levels, build each marginal side pot, award it to the best eligible
contenders, and return the per-player payout map (initialised to 0 for
every seated player). -/
def calculatePayouts (t : Table) (scoreById : List (Nat × Score)) : List (Nat × Int) :=
  let payout0 : List (Nat × Int) := t.players.map (fun p => (p.id, (0 : Int)))
  ((levelsOf t).foldl (payoutStep t scoreById) (0, payout0)).2

/-! ## Hand lifecycle -/

def resetPlayerHandState (p : Player) : Player :=
  { p with inHand := false, folded := false, allIn := false, holeCards := [],
           betThisRound := 0, totalContribution := 0, acted := false }

def cleanupDisconnectedPlayers (t : Table) : Table :=
  { t with players := t.players.filter (fun p => !p.disconnected) }

/-- `assignAdminIfNeeded`: keep a connected admin unique, else promote
the first connected player. -/
def assignAdminIfNeeded (t : Table) : Table :=
  let connected := getConnectedPlayers t
  match connected.find? (fun p => p.isAdmin) with
  | some existingAdmin =>
    { t with players := t.players.map (fun p =>
        if p.id ≠ existingAdmin.id then { p with isAdmin := false } else p) }
  | none =>
    let cleared := t.players.map (fun p => { p with isAdmin := false })
    match connected with
    | [] => { t with players := cleared }
    | first :: _ =>
      addLog { t with players := cleared.map (fun p =>
        if p.id = first.id then { p with isAdmin := true } else p) }
        (first.name ++ " is now admin.")

/-- `finishHand`: clear per-hand state (the pot is *not* cleared), then
either schedule the next hand (timer abstracted away) or end the game.
-/
def finishHand (t : Table) : Table :=
  let t1 := { t with handInProgress := false, currentTurnId := none, currentBet := 0,
                     lastRaiseSize := t.bigBlind, smallBlindId := none, bigBlindId := none,
                     deck := [], burnCards := [], seenCards := [] }
  let t2 := { t1 with players := t1.players.map resetPlayerHandState }
  let t3 := assignAdminIfNeeded (cleanupDisconnectedPlayers t2)
  let eligible := t3.players.filter (fun p => !p.disconnected && 0 < p.chips)
  if t3.gameStarted ∧ 2 ≤ eligible.length then
    addLog t3 "Next hand in 5 seconds."
  else
    let t4 := { t3 with gameStarted := false, phase := Phase.lobby }
    match eligible with
    | [winner] => addLog t4 (winner.name ++ " wins the game.")
    | _ => addLog t4 "Game ended."

/-- `resolveShowdown`: score every contender's 7 cards, distribute the
side pots, credit the winners, snapshot, and finish the hand. -/
def resolveShowdown (t : Table) : Except String Table := do
  let contenders := t.players.filter (fun p => p.inHand && !p.folded)
  if contenders.isEmpty then
    pure (finishHand (addLog t "Hand ended with no contenders."))
  else
    let scoreById ← contenders.mapM (fun p =>
      match evaluateBestHand (p.holeCards ++ t.communityCards) with
      | none => throw "evaluateBestHand expects exactly 7 cards."
      | some s => pure (p.id, s))
    let payouts := calculatePayouts t scoreById
    let t1 := payouts.foldl (fun acc kv =>
      if 0 < kv.2 then updatePlayer acc kv.1 (fun p => { p with chips := p.chips + kv.2 })
      else acc) t
    let payoutRows := (payouts.filter (fun kv => 0 < kv.2)).insertionSort payoutDesc
    let t2 := { t1 with phase := Phase.showdown,
                         lastShowdown := some ⟨false, payoutRows⟩ }
    pure (finishHand (addLog t2 "Showdown payouts."))

/-- `resolveHandByFold`: a single live player scoops the pot without
showdown; anything else defers to `resolveShowdown`. -/
def resolveHandByFold (t : Table) : Except String Table :=
  match t.players.filter (fun p => p.inHand && !p.folded) with
  | [winner] =>
    let t1 := updatePlayer t winner.id (fun p => { p with chips := p.chips + t.pot })
    let t2 := { t1 with phase := Phase.showdown,
                         lastShowdown := some ⟨true, [(winner.id, t.pot)]⟩ }
    pure (finishHand (addLog t2 (winner.name ++ " wins (everyone else folded).")))
  | _ => resolveShowdown t

/-! ## Streets and the action handler -/

/-- `revealNextStreet`: burn, advance the phase, deal 3/1/1 community
cards; any other phase is a no-op. -/
def revealNextStreet (t : Table) : Except String Table :=
  if t.phase = Phase.preflop then do
    let t1 ← burnTopCard t
    let (c1, t2) ← drawCard { t1 with phase := Phase.flop }
    let (c2, t3) ← drawCard t2
    let (c3, t4) ← drawCard t3
    pure (addLog { t4 with communityCards := t4.communityCards ++ [c1, c2, c3] } "Flop dealt.")
  else if t.phase = Phase.flop then do
    let t1 ← burnTopCard t
    let (c, t2) ← drawCard { t1 with phase := Phase.turn }
    pure (addLog { t2 with communityCards := t2.communityCards ++ [c] } "Turn dealt.")
  else if t.phase = Phase.turn then do
    let t1 ← burnTopCard t
    let (c, t2) ← drawCard { t1 with phase := Phase.river }
    pure (addLog { t2 with communityCards := t2.communityCards ++ [c] } "River dealt.")
  else pure t

/-- The `while (phase !== "river") revealNextStreet()` loop, with fuel
covering the three possible street advances (the source's loop runs only
mid-hand, where at most three reveals reach the river). -/
def runToRiver : Nat → Table → Except String Table
  | 0, _ => throw "fast-forward exceeded the street count"
  | fuel + 1, t =>
    if t.phase = Phase.river then pure t
    else do runToRiver fuel (← revealNextStreet t)

def fastForwardBoardAndShowdown (t : Table) : Except String Table :=
  if !t.handInProgress then pure t
  else if countRemainingInHand t ≤ 1 then resolveHandByFold t
  else do resolveShowdown (← runToRiver 4 t)

/-- Tail of `goToNextStreet` after the street-reset record update: seat
the turn pointer on the first actionable player left of the dealer, or
fast-forward when nobody can act. -/
def goToNextStreetFinish (t3 : Table) : Except String Table :=
  match getNextPlayer t3 t3.dealerId isPlayerActionable with
  | some first => pure { t3 with currentTurnId := some first.id }
  | none => fastForwardBoardAndShowdown { t3 with currentTurnId := none }

/-- `goToNextStreet`: showdown from the river, otherwise reveal the next
street, reset street bets and `acted`, zero `currentBet`, restore the big
blind raise size, and hand over to `goToNextStreetFinish`. -/
def goToNextStreet (t : Table) : Except String Table :=
  if !t.handInProgress then pure t
  else if t.phase = Phase.river then resolveShowdown t
  else do
    let t1 ← revealNextStreet t
    goToNextStreetFinish { t1 with
      players := t1.players.map (fun (p : Player) =>
        if p.inHand then { p with betThisRound := 0, acted := !isPlayerActionable p } else p),
      currentBet := 0, lastRaiseSize := t1.bigBlind }

/-- `advanceAfterAction`: end the hand on a fold-out, advance the street
on completion, otherwise move the turn pointer to the next actionable
player after the last actor. -/
def advanceAfterAction (t : Table) (lastActorId : Nat) : Except String Table :=
  if !t.handInProgress then pure t
  else if countRemainingInHand t ≤ 1 then resolveHandByFold t
  else if isBettingRoundComplete t then goToNextStreet t
  else
    match getNextPlayer t (some lastActorId) isPlayerActionable with
    | none => goToNextStreet t
    | some np => pure { t with currentTurnId := some np.id }

/-- A client `action` payload: the lower-cased `type` string and, for a
raise, `Number(action.amount)` (`none` when not an integer). -/
inductive ClientAction
  | fold
  | check
  | call
  | raise (amount : Option Int)
  | invalid
deriving DecidableEq

deriving instance DecidableEq for Except

/-- The mutation block of the accepted-raise branch of `handleAction`:
commit the chips, lift `currentBet`, and on a full raise record the new
`lastRaiseSize` and reset every seat's `acted` to `!actionable`; finally
mark the raiser acted (and all-in when out of chips). -/
def applyRaise (t : Table) (pid : Nat) (playerBetThisRound targetTotal : Int) : Table :=
  let raiseSize := targetTotal - t.currentBet
  let isFullRaise := t.lastRaiseSize ≤ raiseSize
  let t1 := commitBet t pid (targetTotal - playerBetThisRound)
  let t2 := { t1 with currentBet := targetTotal }
  let t3 :=
    if isFullRaise then
      { t2 with lastRaiseSize := raiseSize,
                players := t2.players.map (fun p => { p with acted := !isPlayerActionable p }) }
    else t2
  let t4 := updatePlayer t3 pid (fun p => { p with acted := true })
  let t5 := updatePlayer t4 pid (fun p => if p.chips = 0 then { p with allIn := true } else p)
  addLog t5 "raises."

/-- `handleAction` from server.js.  The first component collects the
`errorMessage` emissions (always to the sender); the second is the
resulting table, `Except.error` modelling a thrown invariant error
downstream.  Every rejection happens before any mutation, so rejecting
branches return the input table unchanged. -/
def handleAction (t : Table) (pid : Nat) (act : ClientAction) :
    List (Nat × String) × Except String Table :=
  match findPlayer t pid with
  | none => ([], pure t)
  | some player =>
    if ¬t.gameStarted ∨ ¬t.handInProgress then
      ([(pid, "No active hand right now.")], pure t)
    else if t.currentTurnId ≠ some pid then
      ([(pid, "It is not your turn.")], pure t)
    else if ¬isPlayerActionable player then
      ([(pid, "You cannot act right now.")], pure t)
    else
      let toCall := max 0 (t.currentBet - player.betThisRound)
      match act with
      | ClientAction.fold =>
        let t1 := updatePlayer t pid
          (fun p => { p with folded := true, inHand := false, acted := true })
        ([], advanceAfterAction (addLog t1 (player.name ++ " folds.")) pid)
      | ClientAction.check =>
        if toCall ≠ 0 then ([(pid, "You cannot check when facing a bet.")], pure t)
        else
          let t1 := updatePlayer t pid (fun p => { p with acted := true })
          ([], advanceAfterAction (addLog t1 (player.name ++ " checks.")) pid)
      | ClientAction.call =>
        if toCall = 0 then ([(pid, "Nothing to call. Use check.")], pure t)
        else
          let callAmount := min toCall player.chips
          let t1 := commitBet t pid callAmount
          let t2 := updatePlayer t1 pid (fun p => { p with acted := true })
          let t3 := updatePlayer t2 pid (fun p => if p.chips = 0 then { p with allIn := true } else p)
          ([], advanceAfterAction (addLog t3 (player.name ++ " calls.")) pid)
      | ClientAction.raise amt =>
        match amt with
        | none => ([(pid, "Raise amount must be an integer.")], pure t)
        | some targetTotal =>
          let maxTotal := player.betThisRound + player.chips
          -- raiseRightsOpen = !player.acted || toCall === 0
          if player.acted = true ∧ toCall ≠ 0 then
            ([(pid, "Betting is not reopened. You may only call or fold.")], pure t)
          else if targetTotal ≤ t.currentBet then
            ([(pid, "Raise must be higher than current bet.")], pure t)
          else if maxTotal < targetTotal then
            ([(pid, "You do not have enough chips for that raise.")], pure t)
          else if targetTotal < getMinRaiseTo t ∧ targetTotal ≠ maxTotal then
            ([(pid, "Minimum raise reached only when all-in.")], pure t)
          else
            ([], advanceAfterAction (applyRaise t pid player.betThisRound targetTotal) pid)
      | ClientAction.invalid => ([(pid, "Invalid action.")], pure t)

/-! ## Starting a hand -/

/-- `createDeck`: suits outer, ranks inner. -/
def createDeck : List Card :=
  (suitChars.map (fun s => rankChars.map (fun r => (⟨r, s⟩ : Card)))).flatten

/-- `assertDeckShape`: exactly 52 entries, all unique, all matching the
card grammar. -/
def assertDeckShape (deck : List Card) : Except String Unit :=
  if deck.length ≠ 52 then throw "Deck must contain exactly 52 cards."
  else if ¬deck.Nodup then throw "Deck contains duplicate cards."
  else if ¬deck.all (fun c => decide (validCard c)) then throw "Invalid card in deck."
  else pure ()

/-- One pass of the hole-card dealing loop: walk the seat ids in order,
dealing one card to each player currently `inHand`. -/
def dealToSeats : List Nat → Table → Except String Table
  | [], t => pure t
  | pid :: rest, t =>
    match findPlayer t pid with
    | none => dealToSeats rest t
    | some p =>
      if p.inHand then do
        let (c, t1) ← drawCard t
        dealToSeats rest (updatePlayer t1 pid (fun q => { q with holeCards := q.holeCards ++ [c] }))
      else dealToSeats rest t

/-- `postForcedBet`: pay the blind capped by the stack; all-in when the
stack hits zero. -/
def postForcedBet (t : Table) (pid : Nat) (amount : Int) : Table :=
  let paid := min amount (((findPlayer t pid).map Player.chips).getD 0)
  let t1 := commitBet t pid paid
  let t2 := updatePlayer t1 pid (fun p => if p.chips = 0 then { p with allIn := true } else p)
  addLog t2 "posts a blind."

/-- The blind-posting block of `startNextHand` (source lines 443–450):
record the blind seats, post both forced bets, then set
`currentBet = max(bigBlind, sb paid, bb paid)` — a short blind all-in
does not reduce preflop sizing — and `lastRaiseSize = bigBlind`. -/
def postBlindsStep (t : Table) (sbId bbId : Nat) : Table :=
  let t1 := { t with smallBlindId := some sbId, bigBlindId := some bbId }
  let t2 := postForcedBet t1 sbId t1.smallBlind
  let t3 := postForcedBet t2 bbId t2.bigBlind
  let sbBet := ((findPlayer t3 sbId).map Player.betThisRound).getD 0
  let bbBet := ((findPlayer t3 bbId).map Player.betThisRound).getD 0
  { t3 with currentBet := max t3.bigBlind (max sbBet bbBet), lastRaiseSize := t3.bigBlind }

/-- `startNextHand` from server.js, with the shuffle abstracted as a
function parameter applied to the freshly built deck (the source draws
`Math.random`; both the fresh and the shuffled deck go through
`assertDeckShape` exactly as in the code). -/
def startNextHand (shuffle : List Card → List Card) (t0 : Table) : Except String Table :=
  let t := assignAdminIfNeeded (cleanupDisconnectedPlayers t0)
  let eligible := t.players.filter (fun p => !p.disconnected && 0 < p.chips)
  match eligible with
  | [] =>
    pure (addLog { t with gameStarted := false, handInProgress := false, phase := Phase.lobby,
                          deck := [], burnCards := [], seenCards := [], currentTurnId := none,
                          smallBlindId := none, bigBlindId := none, currentBet := 0,
                          lastRaiseSize := t.bigBlind } "Game stopped: not enough players.")
  | [lone] =>
    pure (addLog { t with gameStarted := false, handInProgress := false, phase := Phase.lobby,
                          deck := [], burnCards := [], seenCards := [], currentTurnId := none,
                          smallBlindId := none, bigBlindId := none, currentBet := 0,
                          lastRaiseSize := t.bigBlind } (lone.name ++ " wins the game."))
  | e0 :: _ :: _ => do
    let t1 := { t with handInProgress := true, phase := Phase.preflop,
                       handNumber := t.handNumber + 1, communityCards := [], pot := 0,
                       currentBet := 0, lastRaiseSize := t.bigBlind, currentTurnId := none,
                       smallBlindId := none, bigBlindId := none, lastShowdown := none,
                       burnCards := [], seenCards := [] }
    let freshDeck := createDeck
    assertDeckShape freshDeck
    let shuffled := shuffle freshDeck
    assertDeckShape shuffled
    let t2 := { t1 with deck := shuffled }
    let t3 := { t2 with players := t2.players.map (fun (p : Player) =>
      { p with inHand := !p.disconnected && 0 < p.chips,
               folded := !(!p.disconnected && decide (0 < p.chips)),
               allIn := false, holeCards := [], betThisRound := 0,
               totalContribution := 0, acted := false }) }
    let dealerId :=
      match t3.dealerId with
      | none => e0.id
      | some d =>
        if eligible.all (fun p => p.id ≠ d) then e0.id
        else
          match getNextPlayer t3 (some d) (fun p => p.inHand) with
          | some nextDealer => nextDealer.id
          | none => e0.id
    let t4 := { t3 with dealerId := some dealerId }
    let seatIds := t4.players.map (fun p => p.id)
    let t5 ← dealToSeats seatIds t4
    let t6 ← dealToSeats seatIds t5
    let playersInHand := t6.players.filter (fun p => p.inHand)
    let sbOpt :=
      if playersInHand.length = 2 then findPlayer t6 dealerId
      else getNextPlayer t6 (some dealerId) (fun p => p.inHand)
    let bbOpt :=
      if playersInHand.length = 2 then getNextPlayer t6 (some dealerId) (fun p => p.inHand)
      else
        getNextPlayer t6
          (some (match sbOpt with | some sb => sb.id | none => dealerId)) (fun p => p.inHand)
    match sbOpt, bbOpt with
    | some sbP, some bbP =>
      let t7 := postBlindsStep t6 sbP.id bbP.id
      let t8 := { t7 with players :=
                    t7.players.map (fun (p : Player) => { p with acted := !isPlayerActionable p }) }
      let t9 :=
        match getNextPlayer t8 t8.bigBlindId isPlayerActionable with
        | some firstToAct => { t8 with currentTurnId := some firstToAct.id }
        | none => { t8 with currentTurnId := none }
      let t10 := addLog t9 "Hand started."
      if t10.currentTurnId = none then fastForwardBoardAndShowdown t10 else pure t10
    | _, _ => resolveHandByFold (addLog t6 "Unable to assign blinds.")

/-! ## Per-viewer projection and the lobby stack handler -/

/-- The `availableActions` record of the `state` projection. -/
structure AvailableActions where
  canFold : Bool
  canCheck : Bool
  canCall : Bool
  canRaise : Bool
  callAmount : Int
  minRaiseTo : Int
  maxRaiseTo : Int
deriving DecidableEq

/-- `computeAvailableActions` from server.js. -/
def computeAvailableActions (t : Table) (viewer : Option Player) : AvailableActions :=
  match viewer with
  | none => ⟨false, false, false, false, 0, getMinRaiseTo t, 0⟩
  | some player =>
    if ¬t.handInProgress ∨ t.currentTurnId ≠ some player.id ∨ ¬isPlayerActionable player then
      ⟨false, false, false, false, 0, getMinRaiseTo t, 0⟩
    else
      let toCall := max 0 (t.currentBet - player.betThisRound)
      let maxTotal := player.betThisRound + player.chips
      let minRaiseTo := getMinRaiseTo t
      let raiseRightsOpen := !player.acted || decide (toCall = 0)
      let canRaise := raiseRightsOpen && decide (0 < player.chips) && decide (t.currentBet < maxTotal)
      ⟨true, decide (toCall = 0), decide (0 < toCall) && decide (0 < player.chips), canRaise,
        min toCall player.chips, if maxTotal < minRaiseTo then maxTotal else minRaiseTo, maxTotal⟩

/-! ## The advisor (`handInsight`)

All advisor arithmetic is integral except `Math.round(58 + high * 2.6)`
in the pocket-pair branch; `2.6 · high` has exactly one decimal digit
(never `.5`), so the double rounding noise cannot move the result and
`(580 + 26 · high + 5) / 10` in integers is exact. -/

def clampStrength (v : Int) : Int := max 1 (min 100 v)

def strengthLabelFromScore (score : Int) : String :=
  if 90 ≤ score then "Monster"
  else if 78 ≤ score then "Very Strong"
  else if 64 ≤ score then "Strong"
  else if 50 ≤ score then "Playable"
  else if 36 ≤ score then "Marginal"
  else "Weak"

def recommendationFromInsight (score : Int) (draws : List String) : String :=
  if 85 ≤ score then "You are usually ahead. Bet or raise for value."
  else if 68 ≤ score then "Solid hand. Keep betting, but watch heavy aggression."
  else if ¬draws.isEmpty ∧ 42 ≤ score then "You are drawing. Continue when the price is reasonable."
  else if 50 ≤ score then "Medium strength. Prefer pot control against big bets."
  else "Mostly weak. Check/fold unless you have a strong read."

def rankToLabel (rank : Int) : String :=
  if rank ≤ 10 then toString rank
  else if rank = 11 then "J"
  else if rank = 12 then "Q"
  else if rank = 13 then "K"
  else "A"

def rankWord (rank : Int) : String :=
  if rank = 2 then "Two" else if rank = 3 then "Three" else if rank = 4 then "Four"
  else if rank = 5 then "Five" else if rank = 6 then "Six" else if rank = 7 then "Seven"
  else if rank = 8 then "Eight" else if rank = 9 then "Nine" else if rank = 10 then "Ten"
  else if rank = 11 then "Jack" else if rank = 12 then "Queen" else if rank = 13 then "King"
  else if rank = 14 then "Ace" else toString rank

def rankWordPlural (rank : Int) : String :=
  if rank = 2 then "Twos" else if rank = 3 then "Threes" else if rank = 4 then "Fours"
  else if rank = 5 then "Fives" else if rank = 6 then "Sixes" else if rank = 7 then "Sevens"
  else if rank = 8 then "Eights" else if rank = 9 then "Nines" else if rank = 10 then "Tens"
  else if rank = 11 then "Jacks" else if rank = 12 then "Queens" else if rank = 13 then "Kings"
  else if rank = 14 then "Aces" else toString rank ++ "s"

def describeScoreDetailed (score : Score) : String :=
  let r0 : Int := score.ranks.getD 0 0
  let r1 : Int := score.ranks.getD 1 0
  if score.category = 0 then "High Card (" ++ rankWord r0 ++ ")"
  else if score.category = 1 then "One Pair (" ++ rankWordPlural r0 ++ ")"
  else if score.category = 2 then
    "Two Pair (" ++ rankWordPlural r0 ++ " and " ++ rankWordPlural r1 ++ ")"
  else if score.category = 3 then "Three of a Kind (" ++ rankWordPlural r0 ++ ")"
  else if score.category = 4 then "Straight (" ++ rankWord r0 ++ " high)"
  else if score.category = 5 then "Flush (" ++ rankWord r0 ++ " high)"
  else if score.category = 6 then
    "Full House (" ++ rankWordPlural r0 ++ " over " ++ rankWordPlural r1 ++ ")"
  else if score.category = 7 then "Four of a Kind (" ++ rankWordPlural r0 ++ ")"
  else "Straight Flush (" ++ rankWord r0 ++ " high)"

/-- The viewer-facing insight tuple. -/
structure HandInsight where
  currentHand : String
  strengthScore : Int
  strengthLabel : String
  draws : List String
  recommendation : String
deriving DecidableEq

/-- `evaluatePreflopStrength` from server.js (the call site guarantees
two hole cards; out-of-range accesses default like the other models). -/
def evaluatePreflopStrength (holeCards : List Card) : HandInsight :=
  let c0 := holeCards.getD 0 ⟨'2', 'S'⟩
  let c1 := holeCards.getD 1 ⟨'2', 'S'⟩
  let firstRank : Int := rankValue c0.rank
  let secondRank : Int := rankValue c1.rank
  let high := max firstRank secondRank
  let low := min firstRank secondRank
  let suited := c0.suit = c1.suit
  if firstRank = secondRank then
    let score := clampStrength ((580 + high * 26 + 5) / 10)
    ⟨"Pocket " ++ rankWordPlural high, score, strengthLabelFromScore score, [],
      recommendationFromInsight score []⟩
  else
    let gap := high - low - 1
    let base := 18 + high * 2 + low + (if suited then 7 else 0)
    let adj1 :=
      if gap = 0 then base + 6
      else if gap = 1 then base + 3
      else if 3 ≤ gap then base - min 12 ((gap - 2) * 3)
      else base
    let adj2 := if 11 ≤ high ∧ 10 ≤ low then adj1 + 8 else adj1
    let adj3 := if high = 14 ∧ 10 ≤ low then adj2 + 4 else adj2
    let score := clampStrength adj3
    ⟨rankToLabel high ++ "-" ++ rankToLabel low ++ (if suited then " suited" else " offsuit"),
      score, strengthLabelFromScore score, [], recommendationFromInsight score []⟩

/-- `detectStraightDraw`: scan the ten 5-rank windows (ace also low);
a window with exactly four present ranks is open-ended when the missing
rank sits at an end, else a gutshot. -/
def detectStraightDraw (knownCards : List Card) : String :=
  let ranks := knownCards.map (fun c => rankValue c.rank)
  let rankSet := if ranks.contains 14 then 1 :: ranks else ranks
  let hasOpenEnded := (List.range 10).any (fun s =>
    let missingIdxs := (List.range 5).filter (fun i => !rankSet.contains (s + 1 + i))
    missingIdxs.length == 1 && (missingIdxs.contains 0 || missingIdxs.contains 4))
  let hasGutshot := (List.range 10).any (fun s =>
    let missingIdxs := (List.range 5).filter (fun i => !rankSet.contains (s + 1 + i))
    missingIdxs.length == 1 && !missingIdxs.contains 0 && !missingIdxs.contains 4)
  if hasOpenEnded then "open" else if hasGutshot then "gutshot" else ""

/-- `detectDraws` from server.js; the board size is read from the table
at the call site and passed here. -/
def detectDraws (communityCount : Nat) (knownCards : List Card) (madeScore : Option Score) :
    List String :=
  if 5 ≤ communityCount then []
  else
    let flushPart : List String :=
      if (match madeScore with | none => true | some ms => decide (ms.category < 5)) then
        let suits := knownCards.map Card.suit
        if suits.dedup.any (fun su => 4 ≤ suits.count su) then ["Flush draw"] else []
      else []
    let straightPart : List String :=
      if (match madeScore with | none => true | some ms => decide (ms.category < 4)) then
        let sd := detectStraightDraw knownCards
        if sd = "open" then ["Open-ended straight draw"]
        else if sd = "gutshot" then ["Gutshot straight draw"]
        else []
      else []
    flushPart ++ straightPart

/-- `scorePostflopStrength` from server.js (all-integer arithmetic;
`Math.round` on an integer is the identity). -/
def scorePostflopStrength (madeScore : Score) (draws : List String) (communityCount : Nat) :
    Int :=
  let baseByCategory : List Int := [24, 44, 62, 73, 83, 87, 93, 98, 100]
  let r0 : Int := madeScore.ranks.getD 0 0
  let base := baseByCategory.getD madeScore.category 20
  let s1 :=
    if madeScore.category = 0 then base + max 0 (r0 - 10) * 2
    else if madeScore.category = 1 then base + max 0 (r0 - 8) * 2
    else if madeScore.category = 2 then base + max 0 (r0 - 9)
    else if madeScore.category = 3 then base + max 0 (r0 - 7)
    else if 4 ≤ madeScore.category then base + max 0 (r0 - 10)
    else base
  let s2 := if draws.contains "Flush draw" then s1 + 8 else s1
  let s3 :=
    if draws.contains "Open-ended straight draw" then s2 + 6
    else if draws.contains "Gutshot straight draw" then s2 + 3
    else s2
  let s4 := if communityCount < 5 ∧ madeScore.category < 4 then min s3 97 else s3
  clampStrength s4

/-- `buildHandInsight` from server.js.  (`madeScore` cannot be `none` on
the call path — the viewer holds 2 cards and the board 3–5 — so the
`none` fallback is dead.) -/
def buildHandInsight (t : Table) (viewer : Option Player) : Option HandInsight :=
  match viewer with
  | none => none
  | some player =>
    if ¬t.handInProgress ∨ ¬player.inHand ∨ player.folded ∨ player.holeCards.length ≠ 2 then
      none
    else if t.communityCards.length = 0 then some (evaluatePreflopStrength player.holeCards)
    else
      let knownCards := player.holeCards ++ t.communityCards
      let madeScore := evaluateBestKnownHand knownCards
      let draws := detectDraws t.communityCards.length knownCards madeScore
      match madeScore with
      | none => none
      | some ms =>
        let score := scorePostflopStrength ms draws t.communityCards.length
        some ⟨describeScoreDetailed ms, score, strengthLabelFromScore score, draws,
              recommendationFromInsight score draws⟩

/-! ## The `state` projection -/

/-- The redacted per-player row of the projection: no hole cards. -/
structure PublicPlayer where
  id : Nat
  name : String
  chips : Int
  isAdmin : Bool
  inHand : Bool
  folded : Bool
  allIn : Bool
  betThisRound : Int
  totalContribution : Int
  isTurn : Bool
deriving DecidableEq

/-- The full per-viewer `state` payload of `buildStateFor`. -/
structure ClientState where
  joined : Bool
  youId : Nat
  gameStarted : Bool
  handInProgress : Bool
  handNumber : Int
  phase : Phase
  startingStack : Int
  smallBlind : Int
  bigBlind : Int
  pot : Int
  currentBet : Int
  deckRemaining : Nat
  burnCount : Nat
  dealtCount : Nat
  minRaiseTo : Int
  dealerId : Option Nat
  smallBlindId : Option Nat
  bigBlindId : Option Nat
  currentTurnId : Option Nat
  communityCards : List Card
  yourCards : List Card
  handInsight : Option HandInsight
  availableActions : AvailableActions
  canAct : Bool
  players : List PublicPlayer
  logs : List String
  lastShowdown : Option ShowdownSnap
deriving DecidableEq

/-- `buildStateFor` from server.js. -/
def buildStateFor (t : Table) (viewerId : Nat) : ClientState :=
  let viewer := findPlayer t viewerId
  let shownPlayers := t.players.filter (fun p => !p.disconnected)
  { joined := viewer.isSome
    youId := viewerId
    gameStarted := t.gameStarted
    handInProgress := t.handInProgress
    handNumber := t.handNumber
    phase := t.phase
    startingStack := t.startingStack
    smallBlind := t.smallBlind
    bigBlind := t.bigBlind
    pot := t.pot
    currentBet := t.currentBet
    deckRemaining := t.deck.length
    burnCount := t.burnCards.length
    dealtCount := t.seenCards.length
    minRaiseTo := getMinRaiseTo t
    dealerId := t.dealerId
    smallBlindId := t.smallBlindId
    bigBlindId := t.bigBlindId
    currentTurnId := t.currentTurnId
    communityCards := t.communityCards
    yourCards :=
      match viewer with
      | some v => if v.inHand then v.holeCards else []
      | none => []
    handInsight := buildHandInsight t viewer
    availableActions := computeAvailableActions t viewer
    canAct :=
      match viewer with
      | some v => decide (t.currentTurnId = some v.id) && isPlayerActionable v
      | none => false
    players := shownPlayers.map (fun p =>
      ⟨p.id, p.name, p.chips, p.isAdmin, p.inHand, p.folded, p.allIn, p.betThisRound,
        p.totalContribution, decide (t.currentTurnId = some p.id)⟩)
    logs := t.logs
    lastShowdown := t.lastShowdown }

/-- The `setStartingStack` socket handler: admin-only, lobby-only,
integer in `[50, 1,000,000]`; on success set the table default and every
connected player's stack. -/
def setStartingStack (t : Table) (pid : Nat) (amount : Option Int) :
    List (Nat × String) × Table :=
  let senderIsAdmin :=
    match findPlayer t pid with
    | some p => p.isAdmin
    | none => false
  if senderIsAdmin = false then ([(pid, "Only the admin can set starting money.")], t)
  else if t.gameStarted then ([(pid, "Cannot change starting money after game start.")], t)
  else
    match amount with
    | none => ([(pid, "Starting money must be an integer between 50 and 1,000,000.")], t)
    | some a =>
      if a < 50 ∨ 1000000 < a then
        ([(pid, "Starting money must be an integer between 50 and 1,000,000.")], t)
      else
        let t1 := { t with startingStack := a,
                           players := t.players.map (fun (p : Player) =>
                             if ¬p.disconnected then { p with chips := a } else p) }
        ([], addLog t1 "set starting money.")

/-! ## Concrete scenario fixtures -/

/-- A mid-hand seat for concrete scenarios. -/
def seatInHand (i : Nat) (nm : String) (ch tc : Int) : Player :=
  { id := i, name := nm, chips := ch, isAdmin := i = 1, disconnected := false,
    inHand := true, folded := false, allIn := false, holeCards := [⟨'2', 'S'⟩, ⟨'3', 'H'⟩],
    betThisRound := 0, totalContribution := tc, acted := false }

/-- A lobby seat (not yet in a hand) for concrete scenarios. -/
def seatInLobby (i : Nat) (nm : String) (ch : Int) : Player :=
  { id := i, name := nm, chips := ch, isAdmin := i = 1, disconnected := false,
    inHand := false, folded := false, allIn := false, holeCards := [],
    betThisRound := 0, totalContribution := 0, acted := false }

/-- Extract the table from a handler result, keeping the input on a
thrown invariant error (scenario plumbing only). -/
def stepOk (t : Table) (pid : Nat) (act : ClientAction) : Table :=
  match (handleAction t pid act).2 with
  | Except.ok t2 => t2
  | Except.error _ => t

/-- Flop, three players with 20 preflop contribution each, Alice first
to act: the stage for the bet / full raise / all-in under-raise play. -/
def underRaiseTable : Table :=
  { players := [seatInHand 1 "Alice" 1000 20, seatInHand 2 "Bob" 1000 20,
                seatInHand 3 "Cara" 300 20],
    startingStack := 1000, smallBlind := 10, bigBlind := 20,
    gameStarted := true, handInProgress := true, handNumber := 1, phase := Phase.flop,
    deck := createDeck, burnCards := [], seenCards := [],
    communityCards := [⟨'7', 'S'⟩, ⟨'8', 'D'⟩, ⟨'J', 'C'⟩],
    pot := 60, currentBet := 0, lastRaiseSize := 20,
    currentTurnId := some 1, dealerId := some 3, smallBlindId := some 1, bigBlindId := some 2,
    logs := [], lastShowdown := none }

def underRaiseT1 : Table := stepOk underRaiseTable 1 (ClientAction.raise (some 100))
def underRaiseT2 : Table := stepOk underRaiseT1 2 (ClientAction.raise (some 250))
def underRaiseT3 : Table := stepOk underRaiseT2 3 (ClientAction.raise (some 300))
def underRaiseT4 : Table := stepOk underRaiseT3 1 ClientAction.call

/-- Heads-up preflop after blinds 10/20, pot 30, Alice to act. -/
def foldOutTable : Table :=
  { players := [seatInHand 1 "Alice" 990 10, seatInHand 2 "Bob" 980 20],
    startingStack := 1000, smallBlind := 10, bigBlind := 20,
    gameStarted := true, handInProgress := true, handNumber := 1, phase := Phase.preflop,
    deck := createDeck, burnCards := [], seenCards := [],
    communityCards := [],
    pot := 30, currentBet := 20, lastRaiseSize := 20,
    currentTurnId := some 1, dealerId := some 1, smallBlindId := some 1, bigBlindId := some 2,
    logs := [], lastShowdown := none }

/-- Between hands: three players, Cara down to 15 chips, the dealer
button on Cara so that the next hand gives Alice the small blind and
Cara the big blind, with blinds 10/20. -/
def shortBlindTable : Table :=
  { players := [seatInLobby 1 "Alice" 1000, seatInLobby 2 "Bob" 1000, seatInLobby 3 "Cara" 15],
    startingStack := 1000, smallBlind := 10, bigBlind := 20,
    gameStarted := true, handInProgress := false, handNumber := 0, phase := Phase.lobby,
    deck := [], burnCards := [], seenCards := [],
    communityCards := [],
    pot := 0, currentBet := 0, lastRaiseSize := 20,
    currentTurnId := none, dealerId := some 3, smallBlindId := none, bigBlindId := none,
    logs := [], lastShowdown := none }

/-- A fresh lobby: game not started, Alice is admin. -/
def lobbyTable : Table :=
  { players := [seatInLobby 1 "Alice" 1000, seatInLobby 2 "Bob" 1000],
    startingStack := 1000, smallBlind := 10, bigBlind := 20,
    gameStarted := false, handInProgress := false, handNumber := 0, phase := Phase.lobby,
    deck := [], burnCards := [], seenCards := [], communityCards := [],
    pot := 0, currentBet := 0, lastRaiseSize := 20,
    currentTurnId := none, dealerId := none, smallBlindId := none, bigBlindId := none,
    logs := [], lastShowdown := none }

/-- The table produced by starting the next hand from
`shortBlindTable` with the identity shuffle. -/
def shortBlindStarted : Table :=
  match startNextHand id shortBlindTable with
  | Except.ok t => t
  | Except.error _ => shortBlindTable

/-- The spec's invariant 2: the pot equals the players' summed
whole-hand contributions. -/
def potBalanced (t : Table) : Prop :=
  t.pot = (t.players.map Player.totalContribution).sum

instance (t : Table) : Decidable (potBalanced t) := by unfold potBalanced; infer_instance

/-! ## Comparator laws

`compareScores` is (the sign of) a linear preorder.  The padded
lexicographic loop is analysed by reducing both lists to a common length
with explicit zero padding, which leaves the comparison unchanged. -/

/-- Zero padding of a tiebreak list up to length `n`. -/
def padTo (n : Nat) (l : List Nat) : List Nat := l ++ List.replicate (n - l.length) 0

theorem cmpZeros_replicate (b : Nat) : cmpZeros (List.replicate b 0) = 0 := by
  induction b with
  | zero => rfl
  | succ b ih => simpa [cmpZeros, List.replicate_succ] using ih

theorem cmpZeros_append_replicate (rs : List Nat) (b : Nat) :
    cmpZeros (rs ++ List.replicate b 0) = cmpZeros rs := by
  induction rs with
  | nil => simpa using cmpZeros_replicate b
  | cons r rs ih => simp [cmpZeros, ih]

theorem cmpRanks_replicate_replicate (a b : Nat) :
    cmpRanks (List.replicate a 0) (List.replicate b 0) = 0 := by
  induction a generalizing b with
  | zero => simpa [cmpRanks] using cmpZeros_replicate b
  | succ a ih =>
    cases b with
    | zero => simpa [cmpRanks, List.replicate_succ] using ih 0
    | succ b => simpa [cmpRanks, List.replicate_succ] using ih b

theorem cmpRanks_replicate_left (rs : List Nat) (a b : Nat) :
    cmpRanks (List.replicate a 0) (rs ++ List.replicate b 0) = cmpZeros rs := by
  induction rs generalizing a with
  | nil => simpa using cmpRanks_replicate_replicate a b
  | cons r rs ih =>
    cases a with
    | zero => simp [cmpRanks, cmpZeros, cmpZeros_append_replicate]
    | succ a => simp [cmpRanks, cmpZeros, List.replicate_succ, ih a]

theorem cmpRanks_append_replicate (l r : List Nat) (a b : Nat) :
    cmpRanks (l ++ List.replicate a 0) (r ++ List.replicate b 0) = cmpRanks l r := by
  induction l generalizing r a b with
  | nil => simpa [cmpRanks] using cmpRanks_replicate_left r a b
  | cons x ls ih =>
    cases r with
    | nil =>
      cases b with
      | zero =>
        have h := ih [] a 0
        simp at h
        simp [cmpRanks, h]
      | succ b =>
        have h := ih [] a b
        simp at h
        simp [cmpRanks, List.replicate_succ, h]
    | cons y rs => simp [cmpRanks, ih rs a b]

theorem cmpRanks_padTo (n : Nat) (l r : List Nat) :
    cmpRanks (padTo n l) (padTo n r) = cmpRanks l r := by
  simpa [padTo] using cmpRanks_append_replicate l r (n - l.length) (n - r.length)

theorem length_padTo {n : Nat} {l : List Nat} (h : l.length ≤ n) : (padTo n l).length = n := by
  simp [padTo]
  omega

theorem cmpRanks_refl (l : List Nat) : cmpRanks l l = 0 := by
  induction l with
  | nil => rfl
  | cons x ls ih => simp [cmpRanks, ih]

theorem cmpRanks_neg_of_length_eq :
    ∀ (l r : List Nat), l.length = r.length → cmpRanks l r = -cmpRanks r l := by
  intro l
  induction l with
  | nil =>
    intro r hr
    cases r with
    | nil => rfl
    | cons y rs => simp at hr
  | cons x ls ih =>
    intro r hr
    cases r with
    | nil => simp at hr
    | cons y rs =>
      by_cases hxy : x = y
      · subst hxy
        simpa [cmpRanks] using ih rs (by simpa using hr)
      · have hyx : y ≠ x := fun h => hxy h.symm
        have e1 : cmpRanks (x :: ls) (y :: rs) = (x : Int) - y := by simp [cmpRanks, hxy]
        have e2 : cmpRanks (y :: rs) (x :: ls) = (y : Int) - x := by simp [cmpRanks, hyx]
        rw [e1, e2]
        omega

theorem cmpRanks_neg (l r : List Nat) : cmpRanks l r = -cmpRanks r l := by
  have h1 := cmpRanks_padTo (max l.length r.length) l r
  have h2 := cmpRanks_padTo (max l.length r.length) r l
  have hl : (padTo (max l.length r.length) l).length = max l.length r.length :=
    length_padTo (le_max_left _ _)
  have hr : (padTo (max l.length r.length) r).length = max l.length r.length :=
    length_padTo (le_max_right _ _)
  rw [← h1, ← h2, cmpRanks_neg_of_length_eq _ _ (by rw [hl, hr])]

theorem cmpRanks_trans_of_length_eq :
    ∀ (a b c : List Nat), a.length = b.length → b.length = c.length →
      0 ≤ cmpRanks a b → 0 ≤ cmpRanks b c → 0 ≤ cmpRanks a c := by
  intro a
  induction a with
  | nil =>
    intro b c hab hbc _ _
    cases b with
    | nil =>
      cases c with
      | nil => simp [cmpRanks, cmpZeros]
      | cons z cs => simp at hbc
    | cons y bs => simp at hab
  | cons x as ih =>
    intro b c hab hbc h1 h2
    cases b with
    | nil => simp at hab
    | cons y bs =>
      cases c with
      | nil => simp at hbc
      | cons z cs =>
        have hab' : as.length = bs.length := by simpa using hab
        have hbc' : bs.length = cs.length := by simpa using hbc
        by_cases hxy : x = y <;> by_cases hyz : y = z
        · subst hxy; subst hyz
          have e1 : cmpRanks (x :: as) (x :: bs) = cmpRanks as bs := by simp [cmpRanks]
          have e2 : cmpRanks (x :: bs) (x :: cs) = cmpRanks bs cs := by simp [cmpRanks]
          have e3 : cmpRanks (x :: as) (x :: cs) = cmpRanks as cs := by simp [cmpRanks]
          rw [e1] at h1; rw [e2] at h2; rw [e3]
          exact ih bs cs hab' hbc' h1 h2
        · subst hxy
          have e2 : cmpRanks (x :: bs) (z :: cs) = (x : Int) - z := by simp [cmpRanks, hyz]
          rw [e2] at h2
          have e3 : cmpRanks (x :: as) (z :: cs) = (x : Int) - z := by simp [cmpRanks, hyz]
          rw [e3]; omega
        · subst hyz
          have e1 : cmpRanks (x :: as) (y :: bs) = (x : Int) - y := by simp [cmpRanks, hxy]
          rw [e1] at h1
          have e3 : cmpRanks (x :: as) (y :: cs) = (x : Int) - y := by simp [cmpRanks, hxy]
          rw [e3]; omega
        · have e1 : cmpRanks (x :: as) (y :: bs) = (x : Int) - y := by simp [cmpRanks, hxy]
          have e2 : cmpRanks (y :: bs) (z :: cs) = (y : Int) - z := by simp [cmpRanks, hyz]
          rw [e1] at h1; rw [e2] at h2
          have hxz : x ≠ z := by omega
          have e3 : cmpRanks (x :: as) (z :: cs) = (x : Int) - z := by simp [cmpRanks, hxz]
          rw [e3]; omega

theorem cmpRanks_trans (a b c : List Nat) (h1 : 0 ≤ cmpRanks a b) (h2 : 0 ≤ cmpRanks b c) :
    0 ≤ cmpRanks a c := by
  set n := max (max a.length b.length) c.length with hn
  have ha : a.length ≤ n := le_trans (le_max_left _ _) (le_max_left _ _)
  have hb : b.length ≤ n := le_trans (le_max_right _ _) (le_max_left _ _)
  have hc : c.length ≤ n := le_max_right _ _
  rw [← cmpRanks_padTo n a b] at h1
  rw [← cmpRanks_padTo n b c] at h2
  rw [← cmpRanks_padTo n a c]
  exact cmpRanks_trans_of_length_eq _ _ _ (by rw [length_padTo ha, length_padTo hb])
    (by rw [length_padTo hb, length_padTo hc]) h1 h2

theorem compareScores_refl (s : Score) : compareScores s s = 0 := by
  simp [compareScores, cmpRanks_refl]

theorem compareScores_neg (s t : Score) : compareScores s t = -compareScores t s := by
  unfold compareScores
  by_cases h : s.category = t.category
  · rw [if_neg (not_not_intro h), if_neg (not_not_intro h.symm)]
    exact cmpRanks_neg _ _
  · have h' : t.category ≠ s.category := fun hh => h hh.symm
    rw [if_pos h, if_pos h']
    omega

theorem compareScores_trans (s t u : Score) (h1 : 0 ≤ compareScores s t)
    (h2 : 0 ≤ compareScores t u) : 0 ≤ compareScores s u := by
  unfold compareScores at h1 h2 ⊢
  by_cases hst : s.category = t.category <;> by_cases htu : t.category = u.category
  · rw [if_neg (not_not_intro hst)] at h1
    rw [if_neg (not_not_intro htu)] at h2
    rw [if_neg (not_not_intro (hst.trans htu))]
    exact cmpRanks_trans _ _ _ h1 h2
  · rw [if_pos htu] at h2
    have hsu : s.category ≠ u.category := by omega
    rw [if_pos hsu]
    omega
  · rw [if_pos hst] at h1
    have hsu : s.category ≠ u.category := by omega
    rw [if_pos hsu]
    omega
  · rw [if_pos hst] at h1
    rw [if_pos htu] at h2
    have hsu : s.category ≠ u.category := by omega
    rw [if_pos hsu]
    omega

/-! ## The best-of-21-subsets property (C1) -/

theorem combinations_length {α : Type} :
    ∀ (k : Nat) (l : List α), (combinations k l).length = l.length.choose k
  | 0, _ => by simp [combinations]
  | _ + 1, [] => by simp [combinations]
  | k + 1, x :: xs => by
    simp only [combinations, List.length_append, List.length_map,
      combinations_length k xs, combinations_length (k + 1) xs, List.length_cons,
      Nat.choose_succ_succ]

theorem foldl_updateBest_spec :
    ∀ (scores : List Score) (b : Score),
      ∃ r, scores.foldl updateBest (some b) = some r ∧ (r = b ∨ r ∈ scores) ∧
        0 ≤ compareScores r b ∧ ∀ s ∈ scores, 0 ≤ compareScores r s := by
  intro scores
  induction scores with
  | nil =>
    intro b
    exact ⟨b, rfl, Or.inl rfl, le_of_eq (compareScores_refl b).symm, by simp⟩
  | cons sc rest ih =>
    intro b
    by_cases h : 0 < compareScores sc b
    · obtain ⟨r, hr, hmem, hge, hall⟩ := ih sc
      refine ⟨r, ?_, ?_, ?_, ?_⟩
      · simpa [updateBest, h] using hr
      · rcases hmem with rfl | hm
        · exact Or.inr (List.mem_cons_self _ _)
        · exact Or.inr (List.mem_cons_of_mem _ hm)
      · exact compareScores_trans r sc b hge (le_of_lt h)
      · intro s hs
        rcases List.mem_cons.mp hs with rfl | hs'
        · exact hge
        · exact hall s hs'
    · obtain ⟨r, hr, hmem, hge, hall⟩ := ih b
      refine ⟨r, ?_, ?_, ?_, ?_⟩
      · simpa [updateBest, h] using hr
      · rcases hmem with rfl | hm
        · exact Or.inl rfl
        · exact Or.inr (List.mem_cons_of_mem _ hm)
      · exact hge
      · intro s hs
        rcases List.mem_cons.mp hs with rfl | hs'
        · have hbs : 0 ≤ compareScores b s := by
            have := compareScores_neg s b
            omega
          exact compareScores_trans r b s hge hbs
        · exact hall s hs'

theorem evaluateBestKnownHand_spec (cards : List Card) (h5 : 5 ≤ cards.length)
    (h7 : cards.length ≤ 7) :
    ∃ r, evaluateBestKnownHand cards = some r ∧
      r ∈ (combinations 5 cards).map evaluateFiveCardHand ∧
      ∀ s ∈ (combinations 5 cards).map evaluateFiveCardHand, 0 ≤ compareScores r s := by
  have hfold : evaluateBestKnownHand cards =
      ((combinations 5 cards).map evaluateFiveCardHand).foldl updateBest none := by
    unfold evaluateBestKnownHand
    rw [if_neg (by omega), List.foldl_map]
  have hne : (combinations 5 cards).map evaluateFiveCardHand ≠ [] := by
    have hpos : 0 < (combinations 5 cards).length := by
      rw [combinations_length]
      exact Nat.choose_pos h5
    intro hcontra
    rw [List.map_eq_nil_iff] at hcontra
    rw [hcontra] at hpos
    simp at hpos
  obtain ⟨s0, rest, hsplit⟩ := List.exists_cons_of_ne_nil hne
  obtain ⟨r, hr, hmem, _, hall⟩ := foldl_updateBest_spec rest s0
  refine ⟨r, ?_, ?_, ?_⟩
  · rw [hfold, hsplit]
    simpa [updateBest] using hr
  · rw [hsplit]
    rcases hmem with rfl | hm
    · exact List.mem_cons_self _ _
    · exact List.mem_cons_of_mem _ hm
  · intro s hs
    rw [hsplit] at hs
    rcases List.mem_cons.mp hs with rfl | hs'
    · obtain ⟨r2, hr2, hmem2, hge2, hall2⟩ := foldl_updateBest_spec rest s
      rw [hr] at hr2
      cases hr2
      exact hge2
    · exact hall s hs'

/-- C1: on a 7-card list of valid cards, `evaluateBestKnownHand` returns a
rank tuple that is one of — and maximal under `compareScores` among — the
evaluations of the 21 five-card subsets by `evaluateFiveCardHand`. -/
theorem best_of_seven_is_max_over_21_subsets (cards : List Card)
    (h7 : cards.length = 7) (_hv : ∀ c ∈ cards, validCard c) :
    (combinations 5 cards).length = 21 ∧
    ∃ r, evaluateBestKnownHand cards = some r ∧
      r ∈ (combinations 5 cards).map evaluateFiveCardHand ∧
      ∀ s ∈ (combinations 5 cards).map evaluateFiveCardHand, 0 ≤ compareScores r s := by
  refine ⟨?_, evaluateBestKnownHand_spec cards (by omega) (by omega)⟩
  rw [combinations_length, h7]
  rfl

/-- Witness for C1 at the spec's heads-up showdown board. -/
theorem best_of_seven_is_max_over_21_subsets_witness :
    (combinations 5 [(⟨'A', 'S'⟩ : Card), ⟨'K', 'S'⟩, ⟨'2', 'S'⟩, ⟨'7', 'S'⟩, ⟨'9', 'S'⟩,
      ⟨'2', 'D'⟩, ⟨'3', 'C'⟩]).length = 21 ∧
    ∃ r, evaluateBestKnownHand [(⟨'A', 'S'⟩ : Card), ⟨'K', 'S'⟩, ⟨'2', 'S'⟩, ⟨'7', 'S'⟩,
      ⟨'9', 'S'⟩, ⟨'2', 'D'⟩, ⟨'3', 'C'⟩] = some r ∧
      r ∈ (combinations 5 [(⟨'A', 'S'⟩ : Card), ⟨'K', 'S'⟩, ⟨'2', 'S'⟩, ⟨'7', 'S'⟩, ⟨'9', 'S'⟩,
        ⟨'2', 'D'⟩, ⟨'3', 'C'⟩]).map evaluateFiveCardHand ∧
      ∀ s ∈ (combinations 5 [(⟨'A', 'S'⟩ : Card), ⟨'K', 'S'⟩, ⟨'2', 'S'⟩, ⟨'7', 'S'⟩, ⟨'9', 'S'⟩,
        ⟨'2', 'D'⟩, ⟨'3', 'C'⟩]).map evaluateFiveCardHand, 0 ≤ compareScores r s :=
  best_of_seven_is_max_over_21_subsets _ rfl (by decide)

/-- C2: for every assignment of suits (shared, position for position, by
the two hands so their flush-ness matches), the wheel `A-2-3-4-5`
evaluates to a straight with high card 5 — a straight flush when the
suits are monochrome — and compares strictly below the `2-3-4-5-6`
straight. -/
theorem wheel_is_five_high_straight :
    ∀ s1 ∈ suitChars, ∀ s2 ∈ suitChars, ∀ s3 ∈ suitChars, ∀ s4 ∈ suitChars, ∀ s5 ∈ suitChars,
      (evaluateFiveCardHand [⟨'A', s1⟩, ⟨'2', s2⟩, ⟨'3', s3⟩, ⟨'4', s4⟩, ⟨'5', s5⟩] =
        if s2 = s1 ∧ s3 = s1 ∧ s4 = s1 ∧ s5 = s1 then ⟨8, [5]⟩ else ⟨4, [5]⟩) ∧
      compareScores (evaluateFiveCardHand [⟨'A', s1⟩, ⟨'2', s2⟩, ⟨'3', s3⟩, ⟨'4', s4⟩, ⟨'5', s5⟩])
        (evaluateFiveCardHand [⟨'2', s1⟩, ⟨'3', s2⟩, ⟨'4', s3⟩, ⟨'5', s4⟩, ⟨'6', s5⟩]) < 0 := by
  decide

/-- Witness for C2: monochrome spades wheel against the spades 6-high. -/
theorem wheel_is_five_high_straight_witness :
    (evaluateFiveCardHand [⟨'A', 'S'⟩, ⟨'2', 'S'⟩, ⟨'3', 'S'⟩, ⟨'4', 'S'⟩, ⟨'5', 'S'⟩] =
      if ('S' : Char) = 'S' ∧ ('S' : Char) = 'S' ∧ ('S' : Char) = 'S' ∧ ('S' : Char) = 'S'
        then (⟨8, [5]⟩ : Score) else ⟨4, [5]⟩) ∧
    compareScores (evaluateFiveCardHand [⟨'A', 'S'⟩, ⟨'2', 'S'⟩, ⟨'3', 'S'⟩, ⟨'4', 'S'⟩, ⟨'5', 'S'⟩])
      (evaluateFiveCardHand [⟨'2', 'S'⟩, ⟨'3', 'S'⟩, ⟨'4', 'S'⟩, ⟨'5', 'S'⟩, ⟨'6', 'S'⟩]) < 0 :=
  wheel_is_five_high_straight 'S' (by decide) 'S' (by decide) 'S' (by decide) 'S' (by decide)
    'S' (by decide)

/-! ## Action-handler lemmas -/

theorem findPlayer_id {t : Table} {pid : Nat} {p : Player} (h : findPlayer t pid = some p) :
    p.id = pid := by
  unfold findPlayer at h
  have := List.find?_some h
  simpa using this

theorem findPlayer_updatePlayer (t : Table) (pid qid : Nat) (f : Player → Player)
    (hf : ∀ p, (f p).id = p.id) :
    findPlayer (updatePlayer t pid f) qid =
      (findPlayer t qid).map (fun p => if p.id = pid then f p else p) := by
  unfold findPlayer updatePlayer
  rw [List.find?_map]
  have hpr : ((fun (p : Player) => p.id == qid) ∘ (fun p => if p.id = pid then f p else p)) =
      (fun (p : Player) => p.id == qid) := by
    funext p
    by_cases h : p.id = pid <;> simp [h, hf]
  rw [hpr]

/-- The raise branch of `handleAction` in guard-resolved form. -/
theorem handleAction_raise_eq (t : Table) (pid : Nat) (player : Player) (n : Int)
    (hfind : findPlayer t pid = some player)
    (hgame : t.gameStarted = true) (hhand : t.handInProgress = true)
    (hturn : t.currentTurnId = some pid) (hact : isPlayerActionable player = true) :
    handleAction t pid (ClientAction.raise (some n)) =
      (if player.acted = true ∧ max 0 (t.currentBet - player.betThisRound) ≠ 0 then
        ([(pid, "Betting is not reopened. You may only call or fold.")], Except.ok t)
      else if n ≤ t.currentBet then
        ([(pid, "Raise must be higher than current bet.")], Except.ok t)
      else if player.betThisRound + player.chips < n then
        ([(pid, "You do not have enough chips for that raise.")], Except.ok t)
      else if n < getMinRaiseTo t ∧ n ≠ player.betThisRound + player.chips then
        ([(pid, "Minimum raise reached only when all-in.")], Except.ok t)
      else ([], advanceAfterAction (applyRaise t pid player.betThisRound n) pid)) := by
  simp only [handleAction, hfind, hgame, hhand, hturn, hact]
  norm_num
  rfl

/-- C3: with the player on turn and actionable, a raise to integer `N`
is accepted — no `errorMessage`, the raise mutation and turn advance
applied — iff raise rights are open, `N > currentBet`,
`N ≤ betThisRound + chips`, and `N ≥ minRaiseTo` unless `N` is exactly
all-in; otherwise a single `errorMessage` goes to the sender and the
table is returned unchanged (no mutation precedes the checks). -/
theorem raise_accept_reject (t : Table) (pid : Nat) (player : Player) (n : Int)
    (hfind : findPlayer t pid = some player)
    (hgame : t.gameStarted = true) (hhand : t.handInProgress = true)
    (hturn : t.currentTurnId = some pid) (hact : isPlayerActionable player = true) :
    (((player.acted = false ∨ max 0 (t.currentBet - player.betThisRound) = 0) ∧
      t.currentBet < n ∧ n ≤ player.betThisRound + player.chips ∧
      (getMinRaiseTo t ≤ n ∨ n = player.betThisRound + player.chips)) →
      handleAction t pid (ClientAction.raise (some n)) =
        ([], advanceAfterAction (applyRaise t pid player.betThisRound n) pid)) ∧
    (¬((player.acted = false ∨ max 0 (t.currentBet - player.betThisRound) = 0) ∧
      t.currentBet < n ∧ n ≤ player.betThisRound + player.chips ∧
      (getMinRaiseTo t ≤ n ∨ n = player.betThisRound + player.chips)) →
      ∃ msg, handleAction t pid (ClientAction.raise (some n)) = ([(pid, msg)], Except.ok t)) := by
  rw [handleAction_raise_eq t pid player n hfind hgame hhand hturn hact]
  constructor
  · rintro ⟨h1, h2, h3, h4⟩
    rw [if_neg ?_, if_neg (by omega), if_neg (by omega), if_neg ?_]
    · rcases h4 with h4 | h4
      · rintro ⟨c1, c2⟩
        omega
      · rintro ⟨c1, c2⟩
        exact c2 h4
    · rcases h1 with h1 | h1
      · rintro ⟨c1, _⟩
        rw [h1] at c1
        cases c1
      · rintro ⟨_, c2⟩
        exact c2 h1
  · intro hnot
    by_cases c1 : player.acted = true ∧ max 0 (t.currentBet - player.betThisRound) ≠ 0
    · exact ⟨_, by rw [if_pos c1]⟩
    · rw [if_neg c1]
      by_cases c2 : n ≤ t.currentBet
      · exact ⟨_, by rw [if_pos c2]⟩
      · rw [if_neg c2]
        by_cases c3 : player.betThisRound + player.chips < n
        · exact ⟨_, by rw [if_pos c3]⟩
        · rw [if_neg c3]
          by_cases c4 : n < getMinRaiseTo t ∧ n ≠ player.betThisRound + player.chips
          · exact ⟨_, by rw [if_pos c4]⟩
          · exfalso
            apply hnot
            refine ⟨?_, by omega, by omega, ?_⟩
            · rcases Decidable.not_and_iff_or_not.mp c1 with h | h
              · exact Or.inl (by simpa using h)
              · exact Or.inr (by simpa using h)
            · rcases Decidable.not_and_iff_or_not.mp c4 with h | h
              · exact Or.inl (by omega)
              · exact Or.inr (by simpa using h)

/-- Witness for C3: Alice's opening raise to 100 on the fixture flop is
accepted. -/
theorem raise_accept_reject_witness :
    handleAction underRaiseTable 1 (ClientAction.raise (some 100)) =
      ([], advanceAfterAction (applyRaise underRaiseTable 1 0 100) 1) := by
  have h := raise_accept_reject underRaiseTable 1 (seatInHand 1 "Alice" 1000 20) 100
    rfl rfl rfl rfl (by decide)
  exact h.1 (by decide)

theorem applyRaise_lastRaiseSize (t : Table) (pid : Nat) (pbtr n : Int) :
    (applyRaise t pid pbtr n).lastRaiseSize =
      if t.lastRaiseSize ≤ n - t.currentBet then n - t.currentBet else t.lastRaiseSize := by
  unfold applyRaise commitBet updatePlayer addLog
  by_cases hfull : t.lastRaiseSize ≤ n - t.currentBet <;>
    by_cases hz : n - pbtr ≤ 0 <;>
    simp [hfull, hz]

theorem applyRaise_acted (t : Table) (pid : Nat) (pbtr n : Int) :
    (applyRaise t pid pbtr n).players.map (fun q => (q.id, q.acted)) =
      t.players.map (fun q =>
        (q.id, if q.id = pid then true
               else if t.lastRaiseSize ≤ n - t.currentBet then !isPlayerActionable q
               else q.acted)) := by
  unfold applyRaise commitBet updatePlayer addLog
  by_cases hfull : t.lastRaiseSize ≤ n - t.currentBet <;>
    by_cases hz : n - pbtr ≤ 0 <;>
    simp only [hfull, hz, if_true, if_false, ite_true, ite_false, List.map_map] <;>
    refine List.map_congr_left ?_ <;>
    intro q hq <;>
    by_cases hid : q.id = pid <;>
    simp only [Function.comp, hid, ite_true, ite_false, if_true, if_false] <;>
    split_ifs <;>
    simp [hid]

/-- C4: an accepted raise clears the other seats' `acted` flags iff the
increment `N − currentBet` reaches `lastRaiseSize` (in which case
`lastRaiseSize` becomes that increment); a player already marked acted
who faces chips to call — as everyone who called before an all-in
under-raise does — gets any raise rejected with the action-not-reopened
error while fold and call stay available, as the fixture play
bet 100 / raise 250 / all-in 300 / call also shows concretely. -/
theorem raise_reopen_rules :
    (∀ (t : Table) (pid : Nat) (pbtr n : Int),
      (applyRaise t pid pbtr n).lastRaiseSize =
        (if t.lastRaiseSize ≤ n - t.currentBet then n - t.currentBet else t.lastRaiseSize) ∧
      (applyRaise t pid pbtr n).players.map (fun q => (q.id, q.acted)) =
        t.players.map (fun q =>
          (q.id, if q.id = pid then true
                 else if t.lastRaiseSize ≤ n - t.currentBet then !isPlayerActionable q
                 else q.acted))) ∧
    (∀ (t : Table) (pid : Nat) (player : Player) (n : Int),
      findPlayer t pid = some player → t.gameStarted = true → t.handInProgress = true →
      t.currentTurnId = some pid → isPlayerActionable player = true →
      player.acted = true → 0 < t.currentBet - player.betThisRound → 0 < player.chips →
      handleAction t pid (ClientAction.raise (some n)) =
        ([(pid, "Betting is not reopened. You may only call or fold.")], Except.ok t) ∧
      (computeAvailableActions t (some player)).canFold = true ∧
      (computeAvailableActions t (some player)).canCall = true ∧
      (computeAvailableActions t (some player)).canRaise = false) ∧
    ((findPlayer underRaiseT3 2).map Player.acted = some true ∧
      (findPlayer underRaiseT4 2).map Player.acted = some true ∧
      handleAction underRaiseT4 2 (ClientAction.raise (some 600)) =
        ([(2, "Betting is not reopened. You may only call or fold.")], Except.ok underRaiseT4) ∧
      (computeAvailableActions underRaiseT4 (findPlayer underRaiseT4 2)).canRaise = false ∧
      (computeAvailableActions underRaiseT4 (findPlayer underRaiseT4 2)).canCall = true ∧
      (computeAvailableActions underRaiseT4 (findPlayer underRaiseT4 2)).canFold = true) := by
  refine ⟨fun t pid pbtr n => ⟨applyRaise_lastRaiseSize t pid pbtr n,
    applyRaise_acted t pid pbtr n⟩, ?_, by decide⟩
  intro t pid player n hfind hgame hhand hturn hact hacted htc hchips
  have hid : player.id = pid := findPlayer_id hfind
  have hmax : max 0 (t.currentBet - player.betThisRound) = t.currentBet - player.betThisRound :=
    max_eq_right (le_of_lt htc)
  constructor
  · rw [handleAction_raise_eq t pid player n hfind hgame hhand hturn hact]
    rw [if_pos ⟨hacted, by omega⟩]
  · have hguard : ¬(¬t.handInProgress ∨ t.currentTurnId ≠ some player.id ∨
        ¬isPlayerActionable player) := by
      push_neg
      exact ⟨by simp [hhand], by rw [hid, hturn], by simp [hact]⟩
    refine ⟨?_, ?_, ?_⟩ <;> simp only [computeAvailableActions] <;> rw [if_neg hguard]
    · simp [hmax, htc, hchips]
    · simp [hacted, hmax, htc.ne']

/-- Witness for C4: Bob, having already acted and facing Cara's all-in
under-raise plus Alice's call, has his raise rejected. -/
theorem raise_reopen_rules_witness :
    handleAction underRaiseT4 2 (ClientAction.raise (some 600)) =
      ([(2, "Betting is not reopened. You may only call or fold.")], Except.ok underRaiseT4) := by
  have h := raise_reopen_rules.2.1 underRaiseT4 2
    { id := 2, name := "Bob", chips := 750, isAdmin := false, disconnected := false,
      inHand := true, folded := false, allIn := false,
      holeCards := [⟨'2', 'S'⟩, ⟨'3', 'H'⟩], betThisRound := 250, totalContribution := 270,
      acted := true } 600 (by decide) (by decide) (by decide) (by decide) (by decide)
    (by decide) (by decide) (by decide)
  exact h.1

/-! ## Blind posting (C8) -/

theorem map_find_other (t : Table) (pid qid : Nat) (f : Player → Player) (h : qid ≠ pid) :
    (findPlayer t qid).map (fun p => if p.id = pid then f p else p) = findPlayer t qid := by
  cases hfq : findPlayer t qid with
  | none => rfl
  | some p =>
    have hp := findPlayer_id hfq
    simp [hp, h]

theorem commitBet_find (t : Table) (pid qid : Nat) (amt : Int) :
    findPlayer (commitBet t pid amt) qid =
      if amt ≤ 0 then findPlayer t qid
      else (findPlayer t qid).map (fun p =>
        if p.id = pid then
          { p with chips := p.chips - amt, betThisRound := p.betThisRound + amt,
                   totalContribution := p.totalContribution + amt }
        else p) := by
  unfold commitBet
  split
  · rfl
  · exact findPlayer_updatePlayer t pid qid _ (fun p => rfl)

theorem findPlayer_addLog (t : Table) (m : String) (qid : Nat) :
    findPlayer (addLog t m) qid = findPlayer t qid := rfl

theorem postForcedBet_scalars (t : Table) (pid : Nat) (amt : Int) :
    (postForcedBet t pid amt).smallBlind = t.smallBlind ∧
    (postForcedBet t pid amt).bigBlind = t.bigBlind := by
  unfold postForcedBet addLog updatePlayer commitBet
  by_cases h : amt ⊓ (Option.map Player.chips (findPlayer t pid)).getD 0 ≤ 0 <;>
    simp [h, updatePlayer]

theorem allInFlag_id (r : Player) :
    ((fun x : Player => if x.chips = 0 then { x with allIn := true } else x) r).id = r.id := by
  by_cases hr : r.chips = 0 <;> simp [hr]

theorem postForcedBet_find_other (t : Table) (pid qid : Nat) (amt : Int) (h : qid ≠ pid) :
    findPlayer (postForcedBet t pid amt) qid = findPlayer t qid := by
  simp only [postForcedBet]
  rw [findPlayer_addLog, findPlayer_updatePlayer _ _ _ _ allInFlag_id,
    map_find_other _ _ _ _ h, commitBet_find]
  split
  · rfl
  · rw [map_find_other _ _ _ _ h]

theorem postForcedBet_find_self (t : Table) (pid : Nat) (amt : Int) (p : Player)
    (hf : findPlayer t pid = some p) (hb : p.betThisRound = 0) (hc : 0 ≤ p.chips)
    (hamt : 0 < amt) :
    ∃ q, findPlayer (postForcedBet t pid amt) pid = some q ∧
      q.betThisRound = min amt p.chips := by
  have hpid := findPlayer_id hf
  simp only [postForcedBet]
  rw [findPlayer_addLog, findPlayer_updatePlayer _ _ _ _ allInFlag_id, commitBet_find, hf]
  by_cases hz : amt ⊓ p.chips ≤ 0
  · have hc0 : p.chips = 0 := by omega
    have hmin : amt ⊓ p.chips = 0 := by omega
    rw [if_pos (by simpa using hz)]
    refine ⟨_, rfl, ?_⟩
    simp only [hpid, ite_true, if_true]
    by_cases hcc : p.chips = 0 <;> simp [hcc, hb, hmin] <;> omega
  · rw [if_neg (by simpa using hz)]
    refine ⟨_, rfl, ?_⟩
    by_cases hcc : p.chips - amt ⊓ p.chips = 0 <;> simp [hpid, hcc, hb]

/-- C8: after blinds are posted at hand start, `currentBet` is
`max(bigBlind, small-blind paid, big-blind paid)` — each paid amount
being the blind capped by the stack — and `lastRaiseSize` is the big
blind; concretely, with blinds 10/20 and a big blind holding 15 chips,
the big blind posts 15 all-in, `currentBet` is 20 and `minRaiseTo` is
40. -/
theorem blinds_posting_rules :
    (∀ (t : Table) (sbId bbId : Nat) (sb bb : Player), findPlayer t sbId = some sb →
      findPlayer t bbId = some bb → sbId ≠ bbId → sb.betThisRound = 0 → bb.betThisRound = 0 →
      0 ≤ sb.chips → 0 ≤ bb.chips → 0 < t.smallBlind → 0 < t.bigBlind →
      (postBlindsStep t sbId bbId).currentBet =
        max t.bigBlind (max (min t.smallBlind sb.chips) (min t.bigBlind bb.chips)) ∧
      (postBlindsStep t sbId bbId).lastRaiseSize = t.bigBlind) ∧
    (startNextHand id shortBlindTable = Except.ok shortBlindStarted ∧
      (findPlayer shortBlindStarted 3).map Player.betThisRound = some 15 ∧
      (findPlayer shortBlindStarted 3).map Player.allIn = some true ∧
      shortBlindStarted.currentBet = 20 ∧ shortBlindStarted.lastRaiseSize = 20 ∧
      getMinRaiseTo shortBlindStarted = 40) := by
  constructor
  · intro t sbId bbId sb bb hsb hbb hne hsb0 hbb0 hsbc hbbc hsbl hbbl
    have hbbSym : bbId ≠ sbId := Ne.symm hne
    simp only [postBlindsStep]
    set t1 : Table := { t with smallBlindId := some sbId, bigBlindId := some bbId } with ht1
    have hsb1 : findPlayer t1 sbId = some sb := hsb
    have hbb1 : findPlayer t1 bbId = some bb := hbb
    obtain ⟨sb2, hsb2, hsb2bet⟩ :=
      postForcedBet_find_self t1 sbId t1.smallBlind sb hsb1 hsb0 hsbc hsbl
    have hbb2 : findPlayer (postForcedBet t1 sbId t1.smallBlind) bbId = some bb :=
      (postForcedBet_find_other t1 sbId bbId t1.smallBlind hbbSym).trans hbb1
    set t2 := postForcedBet t1 sbId t1.smallBlind with ht2
    have ht2big : t2.bigBlind = t.bigBlind := (postForcedBet_scalars t1 sbId t1.smallBlind).2
    obtain ⟨bb3, hbb3, hbb3bet⟩ :=
      postForcedBet_find_self t2 bbId t2.bigBlind bb hbb2 hbb0 hbbc (by rw [ht2big]; exact hbbl)
    have hsb3 : findPlayer (postForcedBet t2 bbId t2.bigBlind) sbId = some sb2 :=
      (postForcedBet_find_other t2 bbId sbId t2.bigBlind hne).trans hsb2
    set t3 := postForcedBet t2 bbId t2.bigBlind with ht3
    have ht3big : t3.bigBlind = t.bigBlind :=
      ((postForcedBet_scalars t2 bbId t2.bigBlind).2).trans ht2big
    rw [hsb3, hbb3]
    simp only [Option.map_some', Option.getD_some]
    constructor
    · rw [ht3big, hsb2bet, hbb3bet, ht2big]
    · exact ht3big
  · refine ⟨by decide, by decide, by decide, by decide, by decide, by decide⟩

/-- Witness for C8 at the fixture flop table: blinds 10/20 against full
stacks give `currentBet` 20 and `lastRaiseSize` 20. -/
theorem blinds_posting_rules_witness :
    (postBlindsStep underRaiseTable 1 2).currentBet = 20 ∧
    (postBlindsStep underRaiseTable 1 2).lastRaiseSize = 20 := by
  have h := blinds_posting_rules.1 underRaiseTable 1 2 (seatInHand 1 "Alice" 1000 20)
    (seatInHand 2 "Bob" 1000 20) rfl rfl (by decide) rfl rfl (by decide) (by decide)
    (by decide) (by decide)
  exact ⟨h.1.trans (by decide), h.2⟩

/-! ## The lobby stack handler (C10) -/

/-- C10: an accepted `setStartingStack` to `A` records `A` and sets
every connected player's stack to `A`, leaving disconnected players and
every table field other than the log unchanged; a rejected request
(non-admin, game started, or amount not an integer in `[50, 10^6]`)
changes nothing and sends one `errorMessage` to the sender. -/
theorem setStartingStack_frame (t : Table) (pid : Nat) (amount : Option Int) :
    (∀ a, amount = some a →
      (match findPlayer t pid with | some p => p.isAdmin | none => false) = true →
      t.gameStarted = false → 50 ≤ a → a ≤ 1000000 →
      (setStartingStack t pid amount).1 = [] ∧
      (setStartingStack t pid amount).2.startingStack = a ∧
      (setStartingStack t pid amount).2.players =
        t.players.map (fun (p : Player) => if ¬p.disconnected then { p with chips := a } else p) ∧
      (setStartingStack t pid amount).2.smallBlind = t.smallBlind ∧
      (setStartingStack t pid amount).2.bigBlind = t.bigBlind ∧
      (setStartingStack t pid amount).2.gameStarted = t.gameStarted ∧
      (setStartingStack t pid amount).2.handInProgress = t.handInProgress ∧
      (setStartingStack t pid amount).2.handNumber = t.handNumber ∧
      (setStartingStack t pid amount).2.phase = t.phase ∧
      (setStartingStack t pid amount).2.deck = t.deck ∧
      (setStartingStack t pid amount).2.burnCards = t.burnCards ∧
      (setStartingStack t pid amount).2.seenCards = t.seenCards ∧
      (setStartingStack t pid amount).2.communityCards = t.communityCards ∧
      (setStartingStack t pid amount).2.pot = t.pot ∧
      (setStartingStack t pid amount).2.currentBet = t.currentBet ∧
      (setStartingStack t pid amount).2.lastRaiseSize = t.lastRaiseSize ∧
      (setStartingStack t pid amount).2.currentTurnId = t.currentTurnId ∧
      (setStartingStack t pid amount).2.dealerId = t.dealerId ∧
      (setStartingStack t pid amount).2.smallBlindId = t.smallBlindId ∧
      (setStartingStack t pid amount).2.bigBlindId = t.bigBlindId ∧
      (setStartingStack t pid amount).2.lastShowdown = t.lastShowdown) ∧
    (((match findPlayer t pid with | some p => p.isAdmin | none => false) = false ∨
        t.gameStarted = true ∨ amount = none ∨
        (∃ a, amount = some a ∧ (a < 50 ∨ 1000000 < a))) →
      ∃ msg, setStartingStack t pid amount = ([(pid, msg)], t)) := by
  constructor
  · rintro a rfl hadmin hgame h50 h1m
    simp only [setStartingStack]
    rw [if_neg (by simp [hadmin]), if_neg (by simp [hgame]), if_neg (by omega)]
    exact ⟨rfl, rfl, rfl, rfl, rfl, rfl, rfl, rfl, rfl, rfl, rfl, rfl, rfl, rfl, rfl, rfl,
      rfl, rfl, rfl, rfl, rfl⟩
  · intro hrej
    by_cases h1 : (match findPlayer t pid with | some p => p.isAdmin | none => false) = false
    · exact ⟨_, by simp only [setStartingStack]; rw [if_pos h1]⟩
    · have h1' : (match findPlayer t pid with | some p => p.isAdmin | none => false) = true := by
        revert h1
        cases (match findPlayer t pid with | some p => p.isAdmin | none => false) <;> simp
      by_cases h2 : t.gameStarted = true
      · exact ⟨_, by
          simp only [setStartingStack]
          rw [if_neg (by simp [h1']), if_pos (by simp [h2])]⟩
      · cases amount with
        | none =>
          exact ⟨_, by
            simp only [setStartingStack]
            rw [if_neg (by simp [h1']), if_neg (by simp [h2])]⟩
        | some a =>
          by_cases h3 : a < 50 ∨ 1000000 < a
          · exact ⟨_, by
              simp only [setStartingStack]
              rw [if_neg (by simp [h1']), if_neg (by simp [h2]), if_pos h3]⟩
          · exfalso
            rcases hrej with h | h | h | ⟨b, hb, hr⟩
            · exact h1 h
            · exact h2 h
            · cases h
            · cases hb
              exact h3 hr

/-- Witness for C10: the admin sets the stack to 500 in the lobby. -/
theorem setStartingStack_frame_witness :
    (setStartingStack lobbyTable 1 (some 500)).1 = [] ∧
    (setStartingStack lobbyTable 1 (some 500)).2.startingStack = 500 := by
  have h := (setStartingStack_frame lobbyTable 1 (some 500)).1 500 rfl (by decide)
    (by decide) (by decide) (by decide)
  exact ⟨h.1, h.2.1⟩

/-! ## Projection privacy (C9) -/

/-- C9: the projection's `yourCards` is the viewer's own hole cards iff
the viewer is `inHand` (else `[]`, and `[]` for a non-seated viewer),
and no other player's hole cards influence the projection at all: a
table differing only in another player's `holeCards` projects
identically for the viewer. -/
theorem projection_redacts_hole_cards (t : Table) (viewerId : Nat) :
    ((∀ v, findPlayer t viewerId = some v →
        (buildStateFor t viewerId).yourCards = (if v.inHand then v.holeCards else [])) ∧
      (findPlayer t viewerId = none → (buildStateFor t viewerId).yourCards = [])) ∧
    (∀ (pid : Nat) (cards2 : List Card), pid ≠ viewerId →
      buildStateFor (updatePlayer t pid (fun p => { p with holeCards := cards2 })) viewerId =
        buildStateFor t viewerId) := by
  refine ⟨⟨?_, ?_⟩, ?_⟩
  · intro v hv
    simp only [buildStateFor, hv]
  · intro hv
    simp only [buildStateFor, hv]
  · intro pid cards2 hne
    have hfv : findPlayer (updatePlayer t pid (fun p => { p with holeCards := cards2 }))
        viewerId = findPlayer t viewerId := by
      rw [findPlayer_updatePlayer t pid viewerId
        (fun p => { p with holeCards := cards2 }) (fun p => rfl)]
      exact map_find_other t pid viewerId _ (Ne.symm hne)
    simp only [buildStateFor, hfv]
    have hshown : (updatePlayer t pid (fun p => { p with holeCards := cards2 })).players.filter
        (fun p => !p.disconnected) =
        (t.players.filter (fun p => !p.disconnected)).map
          (fun p => if p.id = pid then { p with holeCards := cards2 } else p) := by
      show (t.players.map (fun p => if p.id = pid then { p with holeCards := cards2 } else p)).filter
          (fun p => !p.disconnected) = _
      rw [List.filter_map]
      congr 1
      refine List.filter_congr ?_
      intro x _
      by_cases hx : x.id = pid <;> simp [hx]
    rw [hshown, List.map_map]
    congr 1
    refine List.map_congr_left ?_
    intro p _
    by_cases hp : p.id = pid <;> simp [updatePlayer, Function.comp, hp]

/-- Witness for C9: Alice's projection on the fixture flop shows her own
two cards and ignores a change to Bob's. -/
theorem projection_redacts_hole_cards_witness :
    (buildStateFor underRaiseTable 1).yourCards =
      (if (true : Bool) then [(⟨'2', 'S'⟩ : Card), ⟨'3', 'H'⟩] else []) ∧
    buildStateFor (updatePlayer underRaiseTable 2
        (fun p => { p with holeCards := [⟨'A', 'S'⟩, ⟨'A', 'H'⟩] })) 1 =
      buildStateFor underRaiseTable 1 := by
  have h := projection_redacts_hole_cards underRaiseTable 1
  exact ⟨h.1.1 (seatInHand 1 "Alice" 1000 20) rfl, h.2 2 [⟨'A', 'S'⟩, ⟨'A', 'H'⟩] (by decide)⟩

/-! ## The pot/contribution invariant (C7) -/

theorem sum_tc_map (l : List Player) (f : Player → Player)
    (hf : ∀ p, (f p).totalContribution = p.totalContribution) :
    ((l.map f).map Player.totalContribution).sum = (l.map Player.totalContribution).sum := by
  rw [List.map_map]
  refine congrArg List.sum (List.map_congr_left ?_)
  intro p _
  exact hf p

theorem sum_tc_update_eq (l : List Player) (pid : Nat) (g : Player → Player)
    (hg : ∀ p, (g p).totalContribution = p.totalContribution) :
    ((l.map (fun p => if p.id = pid then g p else p)).map Player.totalContribution).sum =
      (l.map Player.totalContribution).sum := by
  refine sum_tc_map l _ ?_
  intro p
  by_cases hp : p.id = pid <;> simp [hp, hg]

theorem sum_tc_update_add (l : List Player) (pid : Nat) (amt : Int) (g : Player → Player)
    (hg : ∀ p, (g p).totalContribution = p.totalContribution + amt) :
    ((l.map (fun p => if p.id = pid then g p else p)).map Player.totalContribution).sum =
      (l.map Player.totalContribution).sum +
        amt * ((l.filter (fun p => p.id == pid)).length : Int) := by
  induction l with
  | nil => simp
  | cons q l ih =>
    by_cases hq : q.id = pid
    · have hq' : (q.id == pid) = true := by simp [hq]
      have hfil : List.filter (fun p => p.id == pid) (q :: l) =
          q :: List.filter (fun p => p.id == pid) l := by
        simp [List.filter_cons, hq']
      rw [hfil]
      simp only [List.map_cons, List.sum_cons, if_pos hq, ih, hg, List.length_cons]
      push_cast
      ring
    · have hq' : (q.id == pid) = false := by simp [hq]
      have hfil : List.filter (fun p => p.id == pid) (q :: l) =
          List.filter (fun p => p.id == pid) l := by
        simp [List.filter_cons, hq']
      rw [hfil]
      simp only [List.map_cons, List.sum_cons, if_neg hq, ih]
      ring

theorem filter_id_length_one :
    ∀ (l : List Player), (l.map Player.id).Nodup → ∀ p ∈ l, p.id = pid →
      (l.filter (fun q => q.id == pid)).length = 1 := by
  intro l
  induction l with
  | nil => intro _ p hp; cases hp
  | cons q l ih =>
    intro hnd p hp hpid
    have hnd' : (l.map Player.id).Nodup := (List.nodup_cons.mp hnd).2
    by_cases hq : q.id = pid
    · have hnotin : pid ∉ l.map Player.id := by
        rw [← hq]
        exact (List.nodup_cons.mp hnd).1
      have hfil : l.filter (fun r => r.id == pid) = [] := by
        rw [List.filter_eq_nil_iff]
        intro r hr
        simp only [beq_iff_eq]
        intro hrid
        exact hnotin (hrid ▸ List.mem_map_of_mem Player.id hr)
      simp [List.filter_cons, hq, hfil]
    · rcases List.mem_cons.mp hp with rfl | hpl
      · exact absurd hpid hq
      · have hq' : (q.id == pid) = false := by simp [hq]
        simp only [List.filter_cons, hq', if_false, ite_false]
        exact ih hnd' p hpl hpid

theorem commitBet_balance (t : Table) (pid : Nat) (amt : Int)
    (hone : (t.players.filter (fun q => q.id == pid)).length = 1)
    (hinv : potBalanced t) : potBalanced (commitBet t pid amt) := by
  unfold potBalanced at *
  unfold commitBet updatePlayer
  split
  · exact hinv
  · simp only []
    rw [sum_tc_update_add t.players pid amt _ (fun p => rfl), hone, hinv]
    push_cast
    ring

theorem commitBet_players_frame (t : Table) (pid : Nat) (amt : Int) :
    ((commitBet t pid amt).players.map Player.id) = t.players.map Player.id ∧
    (commitBet t pid amt).handInProgress = t.handInProgress := by
  unfold commitBet updatePlayer
  split
  · exact ⟨rfl, rfl⟩
  · refine ⟨?_, rfl⟩
    rw [List.map_map]
    refine List.map_congr_left ?_
    intro p _
    by_cases hp : p.id = pid <;> simp [Function.comp, hp]

theorem addLog_frame (t : Table) (m : String) :
    (addLog t m).pot = t.pot ∧ (addLog t m).players = t.players ∧
    (addLog t m).handInProgress = t.handInProgress := ⟨rfl, rfl, rfl⟩

theorem assignAdmin_hip (t : Table) :
    (assignAdminIfNeeded t).handInProgress = t.handInProgress := by
  simp only [assignAdminIfNeeded]
  cases hf : (getConnectedPlayers t).find? (fun p => p.isAdmin) with
  | some a => rfl
  | none =>
    cases hc : getConnectedPlayers t with
    | nil => rfl
    | cons f r => rfl

theorem cleanup_hip (t : Table) :
    (cleanupDisconnectedPlayers t).handInProgress = t.handInProgress := rfl

theorem finishHand_not_live (t : Table) : (finishHand t).handInProgress = false := by
  simp only [finishHand]
  split
  · rw [(addLog_frame _ _).2.2, assignAdmin_hip, cleanup_hip]
  · split <;> rw [(addLog_frame _ _).2.2, assignAdmin_hip, cleanup_hip]

theorem drawCard_frame {t : Table} {c : Card} {t1 : Table}
    (h : drawCard t = Except.ok (c, t1)) :
    t1.pot = t.pot ∧ t1.players = t.players ∧ t1.handInProgress = t.handInProgress := by
  simp only [drawCard] at h
  split at h
  · simp at h
  · split at h
    · simp at h
    · simp only [pure, Except.pure, Except.ok.injEq, Prod.mk.injEq] at h
      obtain ⟨h1, h2⟩ := h
      subst h2
      exact ⟨rfl, rfl, rfl⟩

theorem burnTopCard_frame {t t1 : Table} (h : burnTopCard t = Except.ok t1) :
    t1.pot = t.pot ∧ t1.players = t.players ∧ t1.handInProgress = t.handInProgress := by
  unfold burnTopCard at h
  cases hd : drawCard t with
  | error e =>
    rw [hd] at h
    simp [Bind.bind, Except.bind] at h
  | ok ct =>
    obtain ⟨c, tmid⟩ := ct
    rw [hd] at h
    simp only [Bind.bind, Except.bind, pure, Except.pure, Except.ok.injEq] at h
    subst h
    obtain ⟨hp, hpl, hh⟩ := drawCard_frame hd
    exact ⟨hp, hpl, hh⟩

theorem revealNextStreet_frame {t t2 : Table} (h : revealNextStreet t = Except.ok t2) :
    t2.pot = t.pot ∧ t2.players = t.players ∧ t2.handInProgress = t.handInProgress := by
  unfold revealNextStreet at h
  split at h
  · cases hb : burnTopCard t with
    | error e => rw [hb] at h; simp [Bind.bind, Except.bind] at h
    | ok u1 =>
      rw [hb] at h
      obtain ⟨hbp, hbl, hbh⟩ := burnTopCard_frame hb
      simp only [Bind.bind, Except.bind] at h
      cases hd1 : drawCard { u1 with phase := Phase.flop } with
      | error e => rw [hd1] at h; dsimp only at h; simp at h
      | ok p1 =>
        obtain ⟨c1, u2⟩ := p1
        rw [hd1] at h
        dsimp only at h
        obtain ⟨h1p, h1l, h1h⟩ := drawCard_frame hd1
        cases hd2 : drawCard u2 with
        | error e => rw [hd2] at h; dsimp only at h; simp at h
        | ok p2 =>
          obtain ⟨c2, u3⟩ := p2
          rw [hd2] at h
          dsimp only at h
          obtain ⟨h2p, h2l, h2h⟩ := drawCard_frame hd2
          cases hd3 : drawCard u3 with
          | error e => rw [hd3] at h; dsimp only at h; simp at h
          | ok p3 =>
            obtain ⟨c3, u4⟩ := p3
            rw [hd3] at h
            dsimp only at h
            obtain ⟨h3p, h3l, h3h⟩ := drawCard_frame hd3
            simp only [pure, Except.pure, Except.ok.injEq] at h
            subst h
            refine ⟨?_, ?_, ?_⟩
            · rw [(addLog_frame _ _).1]
              show u4.pot = t.pot
              rw [h3p, h2p, h1p]
              exact hbp
            · rw [(addLog_frame _ _).2.1]
              show u4.players = t.players
              rw [h3l, h2l, h1l]
              exact hbl
            · rw [(addLog_frame _ _).2.2]
              show u4.handInProgress = t.handInProgress
              rw [h3h, h2h, h1h]
              exact hbh
  · split at h
    · cases hb : burnTopCard t with
      | error e => rw [hb] at h; simp [Bind.bind, Except.bind] at h
      | ok u1 =>
        rw [hb] at h
        obtain ⟨hbp, hbl, hbh⟩ := burnTopCard_frame hb
        simp only [Bind.bind, Except.bind] at h
        cases hd1 : drawCard { u1 with phase := Phase.turn } with
        | error e => rw [hd1] at h; dsimp only at h; simp at h
        | ok p1 =>
          obtain ⟨c1, u2⟩ := p1
          rw [hd1] at h
          dsimp only at h
          obtain ⟨h1p, h1l, h1h⟩ := drawCard_frame hd1
          simp only [pure, Except.pure, Except.ok.injEq] at h
          subst h
          refine ⟨?_, ?_, ?_⟩
          · rw [(addLog_frame _ _).1]
            show u2.pot = t.pot
            rw [h1p]
            exact hbp
          · rw [(addLog_frame _ _).2.1]
            show u2.players = t.players
            rw [h1l]
            exact hbl
          · rw [(addLog_frame _ _).2.2]
            show u2.handInProgress = t.handInProgress
            rw [h1h]
            exact hbh
    · split at h
      · cases hb : burnTopCard t with
        | error e => rw [hb] at h; simp [Bind.bind, Except.bind] at h
        | ok u1 =>
          rw [hb] at h
          obtain ⟨hbp, hbl, hbh⟩ := burnTopCard_frame hb
          simp only [Bind.bind, Except.bind] at h
          cases hd1 : drawCard { u1 with phase := Phase.river } with
          | error e => rw [hd1] at h; dsimp only at h; simp at h
          | ok p1 =>
            obtain ⟨c1, u2⟩ := p1
            rw [hd1] at h
            dsimp only at h
            obtain ⟨h1p, h1l, h1h⟩ := drawCard_frame hd1
            simp only [pure, Except.pure, Except.ok.injEq] at h
            subst h
            refine ⟨?_, ?_, ?_⟩
            · rw [(addLog_frame _ _).1]
              show u2.pot = t.pot
              rw [h1p]
              exact hbp
            · rw [(addLog_frame _ _).2.1]
              show u2.players = t.players
              rw [h1l]
              exact hbl
            · rw [(addLog_frame _ _).2.2]
              show u2.handInProgress = t.handInProgress
              rw [h1h]
              exact hbh
      · simp only [pure, Except.pure, Except.ok.injEq] at h
        subst h
        exact ⟨rfl, rfl, rfl⟩
theorem resolveShowdown_not_live {t t2 : Table} (h : resolveShowdown t = Except.ok t2) :
    t2.handInProgress = false := by
  simp only [resolveShowdown] at h
  split at h
  · simp only [pure, Except.pure, Except.ok.injEq] at h
    subst h
    exact finishHand_not_live _
  · cases hm : (t.players.filter (fun p => p.inHand && !p.folded)).mapM (fun p =>
        match evaluateBestHand (p.holeCards ++ t.communityCards) with
        | none => (throw "evaluateBestHand expects exactly 7 cards." : Except String (Nat × Score))
        | some s => pure (p.id, s)) with
    | error e =>
      rw [hm] at h
      simp [Bind.bind, Except.bind] at h
    | ok sb =>
      rw [hm] at h
      simp only [Bind.bind, Except.bind, pure, Except.pure, Except.ok.injEq] at h
      subst h
      exact finishHand_not_live _

theorem resolveHandByFold_not_live {t t2 : Table} (h : resolveHandByFold t = Except.ok t2) :
    t2.handInProgress = false := by
  unfold resolveHandByFold at h
  split at h
  · simp only [pure, Except.pure, Except.ok.injEq] at h
    subst h
    exact finishHand_not_live _
  · exact resolveShowdown_not_live h

theorem fastForward_not_live {t t2 : Table} (h : fastForwardBoardAndShowdown t = Except.ok t2) :
    t2.handInProgress = false := by
  unfold fastForwardBoardAndShowdown at h
  split at h
  · simp only [pure, Except.pure, Except.ok.injEq] at h
    subst h
    simp_all
  · split at h
    · exact resolveHandByFold_not_live h
    · cases hr : runToRiver 4 t with
      | error e => rw [hr] at h; simp [Bind.bind, Except.bind] at h
      | ok u =>
        rw [hr] at h
        simp only [Bind.bind, Except.bind] at h
        exact resolveShowdown_not_live h

theorem goToNextStreetFinish_inv {t3 t2 : Table} (hinv : potBalanced t3)
    (h : goToNextStreetFinish t3 = Except.ok t2) (hlive : t2.handInProgress = true) :
    potBalanced t2 := by
  unfold goToNextStreetFinish at h
  split at h
  · simp only [pure, Except.pure, Except.ok.injEq] at h
    subst h
    exact hinv
  · rw [fastForward_not_live h] at hlive
    cases hlive

theorem goToNextStreet_inv {t t2 : Table} (hinv : potBalanced t)
    (h : goToNextStreet t = Except.ok t2) (hlive : t2.handInProgress = true) :
    potBalanced t2 := by
  unfold goToNextStreet at h
  split at h
  · simp only [pure, Except.pure, Except.ok.injEq] at h
    subst h
    exact hinv
  · split at h
    · rw [resolveShowdown_not_live h] at hlive
      cases hlive
    · cases hrv : revealNextStreet t with
      | error e => rw [hrv] at h; simp [Bind.bind, Except.bind] at h
      | ok u1 =>
        rw [hrv] at h
        obtain ⟨hup, hul, huh⟩ := revealNextStreet_frame hrv
        simp only [Bind.bind, Except.bind] at h
        refine goToNextStreetFinish_inv ?_ h hlive
        unfold potBalanced at hinv ⊢
        show u1.pot = _
        rw [hup, hinv]
        refine Eq.trans ?_ (sum_tc_map u1.players _ ?_).symm
        · rw [hul]
        · intro p
          by_cases hp : p.inHand = true <;> simp [hp]
theorem advanceAfterAction_inv {t t2 : Table} (pid : Nat) (hinv : potBalanced t)
    (h : advanceAfterAction t pid = Except.ok t2) (hlive : t2.handInProgress = true) :
    potBalanced t2 := by
  unfold advanceAfterAction at h
  split at h
  · simp only [pure, Except.pure, Except.ok.injEq] at h
    subst h
    exact hinv
  · split at h
    · rw [resolveHandByFold_not_live h] at hlive
      cases hlive
    · split at h
      · exact goToNextStreet_inv hinv h hlive
      · split at h
        · exact goToNextStreet_inv hinv h hlive
        · simp only [pure, Except.pure, Except.ok.injEq] at h
          subst h
          exact hinv

theorem potBalanced_updatePlayer (t : Table) (pid : Nat) (g : Player → Player)
    (hg : ∀ p, (g p).totalContribution = p.totalContribution)
    (h : potBalanced t) : potBalanced (updatePlayer t pid g) := by
  unfold potBalanced at h ⊢
  unfold updatePlayer
  show t.pot = _
  rw [sum_tc_update_eq t.players pid g hg]
  exact h

theorem potBalanced_map (t : Table) (f : Player → Player)
    (hf : ∀ p, (f p).totalContribution = p.totalContribution) (h : potBalanced t) :
    potBalanced { t with players := t.players.map f } := by
  unfold potBalanced at h ⊢
  show t.pot = _
  rw [sum_tc_map t.players f hf]
  exact h

theorem potBalanced_addLog (t : Table) (m : String) (h : potBalanced t) :
    potBalanced (addLog t m) := by
  unfold potBalanced at h ⊢
  rw [(addLog_frame t m).1, (addLog_frame t m).2.1]
  exact h

theorem applyRaise_balance (t : Table) (pid : Nat) (pbtr n : Int)
    (hone : (t.players.filter (fun q => q.id == pid)).length = 1)
    (hinv : potBalanced t) : potBalanced (applyRaise t pid pbtr n) := by
  have h1 : potBalanced (commitBet t pid (n - pbtr)) := commitBet_balance t pid _ hone hinv
  have hg2 : ∀ p : Player,
      ((fun x : Player => if x.chips = 0 then { x with allIn := true } else x) p).totalContribution
        = p.totalContribution := by
    intro p
    by_cases hp : p.chips = 0 <;> simp [hp]
  simp only [applyRaise]
  by_cases hfull : t.lastRaiseSize ≤ n - t.currentBet
  · rw [if_pos hfull]
    refine potBalanced_addLog _ _ ?_
    refine potBalanced_updatePlayer _ pid
      (fun x : Player => if x.chips = 0 then { x with allIn := true } else x) hg2 ?_
    refine potBalanced_updatePlayer _ pid (fun x : Player => { x with acted := true })
      (fun p => rfl) ?_
    exact potBalanced_map
      { commitBet t pid (n - pbtr) with currentBet := n, lastRaiseSize := n - t.currentBet }
      (fun x : Player => { x with acted := !isPlayerActionable x }) (fun p => rfl) h1
  · rw [if_neg hfull]
    refine potBalanced_addLog _ _ ?_
    refine potBalanced_updatePlayer _ pid
      (fun x : Player => if x.chips = 0 then { x with allIn := true } else x) hg2 ?_
    exact potBalanced_updatePlayer _ pid (fun x : Player => { x with acted := true })
      (fun p => rfl) h1

/-- C7 (amended): the pot equals the summed contributions after every
handled action event that leaves the hand in progress; the events that
end a hand reset the contributions but leave the pot holding the
distributed amount until the next hand starts, so the invariant as
originally stated fails exactly there. -/
theorem action_preserves_pot_balance (t : Table) (pid : Nat) (act : ClientAction)
    (hnd : (t.players.map Player.id).Nodup) (hinv : potBalanced t) (t2 : Table)
    (hok : (handleAction t pid act).2 = Except.ok t2) (hlive : t2.handInProgress = true) :
    potBalanced t2 := by
  cases hf : findPlayer t pid with
  | none =>
    simp only [handleAction, hf] at hok
    simp only [pure, Except.pure, Except.ok.injEq] at hok
    subst hok
    exact hinv
  | some player =>
    simp only [handleAction, hf] at hok
    have hone : (t.players.filter (fun q => q.id == pid)).length = 1 := by
      have hpp : player ∈ t.players := List.mem_of_find?_eq_some hf
      exact filter_id_length_one t.players hnd player hpp (findPlayer_id hf)
    split at hok
    · simp only [pure, Except.pure, Except.ok.injEq] at hok
      subst hok
      exact hinv
    · split at hok
      · simp only [pure, Except.pure, Except.ok.injEq] at hok
        subst hok
        exact hinv
      · split at hok
        · simp only [pure, Except.pure, Except.ok.injEq] at hok
          subst hok
          exact hinv
        · cases act with
          | fold =>
            dsimp only at hok
            have hok2 : advanceAfterAction (addLog (updatePlayer t pid
                (fun p => { p with folded := true, inHand := false, acted := true }))
                (player.name ++ " folds.")) pid = Except.ok t2 := hok
            exact advanceAfterAction_inv pid
              (potBalanced_addLog _ _ (potBalanced_updatePlayer _ pid
                (fun p : Player => { p with folded := true, inHand := false, acted := true })
                (fun p => rfl) hinv)) hok2 hlive
          | check =>
            dsimp only at hok
            split at hok
            · simp only [pure, Except.pure, Except.ok.injEq] at hok
              subst hok
              exact hinv
            · have hok2 : advanceAfterAction (addLog (updatePlayer t pid
                  (fun p => { p with acted := true })) (player.name ++ " checks.")) pid =
                  Except.ok t2 := hok
              exact advanceAfterAction_inv pid
                (potBalanced_addLog _ _
                  (potBalanced_updatePlayer _ pid (fun p : Player => { p with acted := true })
                    (fun p => rfl) hinv)) hok2 hlive
          | call =>
            dsimp only at hok
            split at hok
            · simp only [pure, Except.pure, Except.ok.injEq] at hok
              subst hok
              exact hinv
            · have hok2 : advanceAfterAction (addLog (updatePlayer (updatePlayer
                  (commitBet t pid (min (max 0 (t.currentBet - player.betThisRound))
                    player.chips)) pid (fun p => { p with acted := true })) pid
                  (fun p => if p.chips = 0 then { p with allIn := true } else p))
                  (player.name ++ " calls.")) pid = Except.ok t2 := hok
              exact advanceAfterAction_inv pid
                (potBalanced_addLog _ _ (potBalanced_updatePlayer _ pid
                  (fun p : Player => if p.chips = 0 then { p with allIn := true } else p)
                  (fun p => by by_cases hp : p.chips = 0 <;> simp [hp])
                  (potBalanced_updatePlayer _ pid (fun p : Player => { p with acted := true })
                    (fun p => rfl)
                    (commitBet_balance t pid _ hone hinv)))) hok2 hlive
          | raise amt =>
            dsimp only at hok
            cases amt with
            | none =>
              dsimp only at hok
              simp only [pure, Except.pure, Except.ok.injEq] at hok
              subst hok
              exact hinv
            | some n =>
              dsimp only at hok
              split at hok
              · simp only [pure, Except.pure, Except.ok.injEq] at hok
                subst hok
                exact hinv
              · split at hok
                · simp only [pure, Except.pure, Except.ok.injEq] at hok
                  subst hok
                  exact hinv
                · split at hok
                  · simp only [pure, Except.pure, Except.ok.injEq] at hok
                    subst hok
                    exact hinv
                  · split at hok
                    · simp only [pure, Except.pure, Except.ok.injEq] at hok
                      subst hok
                      exact hinv
                    · have hok2 : advanceAfterAction (applyRaise t pid player.betThisRound n)
                          pid = Except.ok t2 := hok
                      exact advanceAfterAction_inv pid
                        (applyRaise_balance t pid player.betThisRound n hone hinv) hok2 hlive
          | invalid =>
            dsimp only at hok
            simp only [pure, Except.pure, Except.ok.injEq] at hok
            subst hok
            exact hinv

/-- Witness for the amended C7: Cara's all-in keeps the fixture flop's
pot equal to the summed contributions. -/
theorem action_preserves_pot_balance_witness : potBalanced underRaiseT3 := by
  refine action_preserves_pot_balance underRaiseT2 3 (ClientAction.raise (some 300))
    (by decide) (by decide) underRaiseT3 (by decide) (by decide)

/-- C7 counterexample: after the fold that ends the fixture heads-up
hand, the handled event leaves the pot at 30 while every
`totalContribution` has been reset to 0, so `pot = Σ totalContribution`
does not hold after this handled event. -/
theorem pot_balance_fails_after_fold_out :
    (handleAction foldOutTable 1 ClientAction.fold).2 =
      Except.ok (stepOk foldOutTable 1 ClientAction.fold) ∧
    (stepOk foldOutTable 1 ClientAction.fold).pot = 30 ∧
    ((stepOk foldOutTable 1 ClientAction.fold).players.map Player.totalContribution).sum = 0 ∧
    ¬potBalanced (stepOk foldOutTable 1 ClientAction.fold) := by
  refine ⟨by decide, by decide, by decide, ?_⟩
  unfold potBalanced
  decide

/-! ## C6: the ordered remainder rule of `distributePot`

Association-list lemmas about `bump` and its folds, then the permutation
facts about `orderBySeatAfterDealer`, then the claim. -/

/-- Looking a key up after a `bump`: the bumped key's value moves by `d`,
every other key is untouched. -/
theorem lookup_bump (m : List (Nat × Int)) (i k : Nat) (d : Int) :
    List.lookup k (bump m i d) =
      if k = i then (List.lookup k m).map (fun v => v + d) else List.lookup k m := by
  induction m with
  | nil => simp [bump, List.lookup]
  | cons kv rest ih =>
    obtain ⟨a, v⟩ := kv
    simp only [bump, List.map_cons] at ih ⊢
    by_cases hai : a = i
    · subst hai
      rw [if_pos rfl]
      by_cases hka : k = a
      · subst hka
        simp [List.lookup]
      · have hb : (k == a) = false := by simp [hka]
        simp [List.lookup, hb, ih]
    · rw [if_neg hai]
      by_cases hka : k = a
      · subst hka
        simp [List.lookup, if_neg hai]
      · have hb : (k == a) = false := by simp [hka]
        simp [List.lookup, hb, ih]

/-- Folding `bump` by `d` over a list of keys adds `d` times the key's
multiplicity in that list. -/
theorem lookup_foldl_bump (ks : List Nat) (m : List (Nat × Int)) (k : Nat) (d : Int) :
    List.lookup k (ks.foldl (fun acc i => bump acc i d) m) =
      (List.lookup k m).map (fun v => v + d * (ks.count k)) := by
  induction ks generalizing m with
  | nil => simp
  | cons i rest ih =>
    rw [List.foldl_cons, ih, lookup_bump]
    by_cases h : k = i
    · subst h
      cases List.lookup k m <;> simp [List.count_cons] <;> ring
    · have hb : (i == k) = false := by simp; exact fun hh => h hh.symm
      cases List.lookup k m <;> simp [List.count_cons, hb, h]

/-- The even-share loop of `distributePot`, folded over the winner rows,
seen through a lookup: each key gains `d` per winner carrying it. -/
theorem lookup_foldl_bump_players (ws : List Player) (m : List (Nat × Int))
    (k : Nat) (d : Int) :
    List.lookup k (ws.foldl (fun acc w => bump acc w.id d) m) =
      (List.lookup k m).map (fun v => v + d * ((ws.map Player.id).count k)) := by
  induction ws generalizing m with
  | nil => simp
  | cons w rest ih =>
    rw [List.foldl_cons, ih, lookup_bump]
    by_cases h : k = w.id
    · subst h
      cases List.lookup w.id m <;> simp [List.map_cons, List.count_cons] <;> ring
    · have hb : (w.id == k) = false := by simp; exact fun hh => h hh.symm
      cases List.lookup k m <;> simp [List.map_cons, List.count_cons, hb, h]

/-- With fewer remainder chips than seats, the `i % length` indexing of
the remainder loop never wraps: the loop is a `bump` fold over the first
`r` ordered ids. -/
theorem range_mod_bump_take (l : List Nat) (r : Nat) (hr : r ≤ l.length)
    (m : List (Nat × Int)) (d : Int) :
    (List.range r).foldl (fun acc i => bump acc (l.getD (i % l.length) 0) d) m =
      (l.take r).foldl (fun acc k => bump acc k d) m := by
  induction r with
  | zero => simp
  | succ n ih =>
    have hn : n < l.length := hr
    rw [List.range_succ, List.foldl_append, ih (Nat.le_of_succ_le hr), List.take_succ]
    rw [List.getElem?_eq_getElem hn]
    rw [List.foldl_append]
    simp only [List.foldl_cons, List.foldl_nil, Option.toList_some]
    rw [List.getD_eq_getElem?_getD, Nat.mod_eq_of_lt hn, List.getElem?_eq_getElem hn]
    rfl

/-- The ring order is a rotation (or the empty list of an empty table):
a permutation of the seats. -/
theorem getRingOrder_perm (t : Table) (f : Option Nat) :
    (getRingOrder t f).Perm t.players := by
  unfold getRingOrder
  split
  · next h =>
    have hnil : t.players = [] := List.isEmpty_iff.mp h
    rw [hnil]
  · exact List.rotate_perm _ _

/-- `orderBySeatAfterDealer` permutes its input ids whenever the ids are
distinct seated players. -/
theorem orderBySeatAfterDealer_perm (t : Table) (ids : List Nat)
    (hpn : (t.players.map Player.id).Nodup)
    (hsub : ∀ i ∈ ids, i ∈ t.players.map Player.id)
    (hidn : ids.Nodup) :
    (orderBySeatAfterDealer t ids).Perm ids := by
  unfold orderBySeatAfterDealer
  have h1 : ((getRingOrder t t.dealerId).map (fun p => p.id)).Perm
      (t.players.map (fun p => p.id)) := (getRingOrder_perm t t.dealerId).map _
  have h2 := h1.filter (fun i => ids.contains i)
  refine h2.trans ?_
  have hfn : ((t.players.map (fun p => p.id)).filter (fun i => ids.contains i)).Nodup :=
    List.Nodup.filter _ hpn
  rw [List.perm_ext_iff_of_nodup hfn hidn]
  intro a
  simp only [List.mem_filter]
  constructor
  · rintro ⟨-, hc⟩
    exact List.elem_iff.mp hc
  · intro ha
    exact ⟨hsub a ha, List.elem_iff.mpr ha⟩

/-- **C6.**  A side pot of `sidePot` split among the tied `winners` with
remainder `r = sidePot % winners.length > 0`: the seat order after the
dealer lists exactly the winners' ids, without repetition, its first `r`
entries form a block of length `r`, and each winner's payout entry grows
by `floor(sidePot / winners.length)` plus one extra chip exactly when
their id is among those first `r` ids in seat order after the dealer. -/
theorem remainder_chips_in_seat_order
    (t : Table) (m : List (Nat × Int)) (winners : List Player) (sidePot : Int)
    (hw : winners ≠ [])
    (hwn : (winners.map Player.id).Nodup)
    (hpn : (t.players.map Player.id).Nodup)
    (hsub : ∀ w ∈ winners, w.id ∈ t.players.map Player.id)
    (hr : 0 < sidePot.toNat % winners.length) :
    (orderBySeatAfterDealer t (winners.map Player.id)).length = winners.length ∧
    (orderBySeatAfterDealer t (winners.map Player.id)).Nodup ∧
    (∀ k ∈ orderBySeatAfterDealer t (winners.map Player.id), k ∈ winners.map Player.id) ∧
    ((orderBySeatAfterDealer t (winners.map Player.id)).take
        (sidePot.toNat % winners.length)).length = sidePot.toNat % winners.length ∧
    ∀ w ∈ winners,
      List.lookup w.id (distributePot t m winners sidePot) =
        (List.lookup w.id m).map (fun v =>
          v + ((sidePot.toNat / winners.length : Nat) : Int) +
            (if w.id ∈ (orderBySeatAfterDealer t (winners.map Player.id)).take
                (sidePot.toNat % winners.length) then 1 else 0)) := by
  have hsub' : ∀ i ∈ winners.map Player.id, i ∈ t.players.map Player.id := by
    intro i hi
    obtain ⟨w, hwmem, rfl⟩ := List.mem_map.mp hi
    exact hsub w hwmem
  have hperm := orderBySeatAfterDealer_perm t (winners.map Player.id) hpn hsub' hwn
  have hlen : (orderBySeatAfterDealer t (winners.map Player.id)).length = winners.length := by
    rw [hperm.length_eq, List.length_map]
  have hnodup : (orderBySeatAfterDealer t (winners.map Player.id)).Nodup :=
    hperm.symm.nodup hwn
  have hmem : ∀ k ∈ orderBySeatAfterDealer t (winners.map Player.id),
      k ∈ winners.map Player.id := fun k hk => hperm.mem_iff.mp hk
  have hk0 : 0 < winners.length := List.length_pos.mpr hw
  have hrlt : sidePot.toNat % winners.length < winners.length := Nat.mod_lt _ hk0
  have hrle : sidePot.toNat % winners.length ≤
      (orderBySeatAfterDealer t (winners.map Player.id)).length := by
    rw [hlen]; exact hrlt.le
  have htake : ((orderBySeatAfterDealer t (winners.map Player.id)).take
      (sidePot.toNat % winners.length)).length = sidePot.toNat % winners.length := by
    rw [List.length_take, hlen]
    exact Nat.min_eq_left hrlt.le
  refine ⟨hlen, hnodup, hmem, htake, ?_⟩
  intro w hwmem
  have htknd : ((orderBySeatAfterDealer t (winners.map Player.id)).take
      (sidePot.toNat % winners.length)).Nodup :=
    List.Nodup.sublist (List.take_sublist _ _) hnodup
  simp only [distributePot]
  rw [if_pos hr]
  simp only [distributeRemainder]
  rw [range_mod_bump_take _ _ hrle, lookup_foldl_bump, lookup_foldl_bump_players]
  have hcnt1 : (winners.map Player.id).count w.id =
      1 := List.count_eq_one_of_mem hwn (List.mem_map_of_mem _ hwmem)
  rw [hcnt1]
  by_cases hin : w.id ∈ (orderBySeatAfterDealer t (winners.map Player.id)).take
      (sidePot.toNat % winners.length)
  · rw [List.count_eq_one_of_mem htknd hin, if_pos hin]
    cases List.lookup w.id m <;> simp
  · rw [List.count_eq_zero.mpr hin, if_neg hin]
    cases List.lookup w.id m <;> simp

/-- Witness for C6: the spec's three tied winners share a pot of 10 on
the fixture flop table (dealer on seat 3): seat order after the dealer
is 1, 2, 3, every winner banks the floor share 3, and the single odd
chip goes to seat 1. -/
theorem remainder_chips_in_seat_order_witness :
    (underRaiseTable.players ≠ [] ∧
      (underRaiseTable.players.map Player.id).Nodup ∧
      (∀ w ∈ underRaiseTable.players, w.id ∈ underRaiseTable.players.map Player.id) ∧
      0 < (10 : Int).toNat % underRaiseTable.players.length) ∧
    (∀ w ∈ underRaiseTable.players,
      List.lookup w.id (distributePot underRaiseTable [(1, 0), (2, 0), (3, 0)]
          underRaiseTable.players 10) =
        (List.lookup w.id [(1, (0 : Int)), (2, 0), (3, 0)]).map (fun v =>
          v + (((10 : Int).toNat / underRaiseTable.players.length : Nat) : Int) +
            (if w.id ∈ (orderBySeatAfterDealer underRaiseTable
                (underRaiseTable.players.map Player.id)).take
                ((10 : Int).toNat % underRaiseTable.players.length) then 1 else 0))) :=
  ⟨⟨by decide, by decide, by decide, by decide⟩,
   (remainder_chips_in_seat_order underRaiseTable [(1, 0), (2, 0), (3, 0)]
     underRaiseTable.players 10 (by decide) (by decide) (by decide) (by decide)
     (by decide)).2.2.2.2⟩

/-! ## C5: payout conservation of `calculatePayouts`

First the value-sum and key-set laws of `bump` and its folds, then the
facts about `selectWinners` and the sorted level list, then the level
loop invariant and the claim. -/

/-- `bump` never touches the key column. -/
theorem keys_bump (m : List (Nat × Int)) (k : Nat) (d : Int) :
    (bump m k d).map Prod.fst = m.map Prod.fst := by
  unfold bump
  rw [List.map_map]
  refine List.map_congr_left ?_
  intro kv _
  by_cases h : kv.1 = k <;> simp [Function.comp, h]

/-- Bumping an absent key is a no-op. -/
theorem bump_of_not_mem (m : List (Nat × Int)) (k : Nat) (d : Int)
    (h : k ∉ m.map Prod.fst) : bump m k d = m := by
  unfold bump
  have hpt : ∀ kv ∈ m, (if kv.1 = k then (kv.1, kv.2 + d) else kv) = id kv := by
    intro kv hkv
    have : kv.1 ≠ k := fun he => h (he ▸ List.mem_map_of_mem Prod.fst hkv)
    simp [this]
  rw [List.map_congr_left hpt, List.map_id]

/-- With distinct keys, bumping a present key moves the value total by
exactly `d`. -/
theorem sumVals_bump_mem (m : List (Nat × Int)) (k : Nat) (d : Int)
    (hnd : (m.map Prod.fst).Nodup) (hk : k ∈ m.map Prod.fst) :
    sumVals (bump m k d) = sumVals m + d := by
  induction m with
  | nil => simp at hk
  | cons kv rest ih =>
    obtain ⟨a, v⟩ := kv
    simp only [List.map_cons, List.nodup_cons, List.mem_cons] at hnd hk
    obtain ⟨hna, hndr⟩ := hnd
    by_cases hak : a = k
    · subst hak
      rw [show bump ((a, v) :: rest) a d = (a, v + d) :: bump rest a d from by simp [bump]]
      rw [bump_of_not_mem rest a d hna]
      simp only [sumVals, List.map_cons, List.sum_cons]
      ring
    · rcases hk with h | h
      · exact absurd h.symm hak
      · rw [show bump ((a, v) :: rest) k d = (a, v) :: bump rest k d from by
          simp [bump, hak]]
        simp only [sumVals, List.map_cons, List.sum_cons] at ih ⊢
        rw [ih hndr h]
        ring

/-- Any fold of `bump`s keeps the key column. -/
theorem keys_foldl_bump_any {β : Type} (xs : List β) (g : β → Nat)
    (m : List (Nat × Int)) (d : Int) :
    ((xs.foldl (fun acc x => bump acc (g x) d) m).map Prod.fst) = m.map Prod.fst := by
  induction xs generalizing m with
  | nil => rfl
  | cons x rest ih => rw [List.foldl_cons, ih, keys_bump]

/-- The even-share loop adds `d` per winner to the value total when the
keys are distinct and every winner is keyed. -/
theorem sumVals_foldl_bump_players (ws : List Player) (m : List (Nat × Int)) (d : Int)
    (hnd : (m.map Prod.fst).Nodup) (hsub : ∀ w ∈ ws, w.id ∈ m.map Prod.fst) :
    sumVals (ws.foldl (fun acc w => bump acc w.id d) m) = sumVals m + d * ws.length := by
  induction ws generalizing m with
  | nil => simp
  | cons w rest ih =>
    rw [List.foldl_cons]
    rw [ih (bump m w.id d) (by rw [keys_bump]; exact hnd)
      (by intro x hx; rw [keys_bump]; exact hsub x (List.mem_cons_of_mem _ hx))]
    rw [sumVals_bump_mem m w.id d hnd (hsub w (List.mem_cons_self _ _))]
    simp only [List.length_cons]
    push_cast
    ring

/-- The remainder loop adds `d` per listed id to the value total when
the keys are distinct and every listed id is keyed. -/
theorem sumVals_foldl_bump_ids (ks : List Nat) (m : List (Nat × Int)) (d : Int)
    (hnd : (m.map Prod.fst).Nodup) (hsub : ∀ i ∈ ks, i ∈ m.map Prod.fst) :
    sumVals (ks.foldl (fun acc i => bump acc i d) m) = sumVals m + d * ks.length := by
  induction ks generalizing m with
  | nil => simp
  | cons i rest ih =>
    rw [List.foldl_cons]
    rw [ih (bump m i d) (by rw [keys_bump]; exact hnd)
      (by intro x hx; rw [keys_bump]; exact hsub x (List.mem_cons_of_mem _ hx))]
    rw [sumVals_bump_mem m i d hnd (hsub i (List.mem_cons_self _ _))]
    simp only [List.length_cons]
    push_cast
    ring

/-- `distributePot` keeps the key column. -/
theorem keys_distributePot (t : Table) (m : List (Nat × Int)) (winners : List Player)
    (sidePot : Int) :
    (distributePot t m winners sidePot).map Prod.fst = m.map Prod.fst := by
  simp only [distributePot]
  by_cases hr : 0 < sidePot.toNat % winners.length
  · rw [if_pos hr]
    simp only [distributeRemainder]
    refine Eq.trans (keys_foldl_bump_any _ _ _ _) ?_
    exact keys_foldl_bump_any _ _ _ _
  · rw [if_neg hr]
    exact keys_foldl_bump_any _ _ _ _

/-- `distributePot` pays out exactly `sidePot` in total: the even shares
make `floor(sidePot / k) * k` and the remainder loop hands out the
missing `sidePot mod k` chips. -/
theorem sumVals_distributePot (t : Table) (m : List (Nat × Int)) (winners : List Player)
    (sidePot : Int)
    (hw : winners ≠ [])
    (hwn : (winners.map Player.id).Nodup)
    (hpn : (t.players.map Player.id).Nodup)
    (hsubp : ∀ w ∈ winners, w.id ∈ t.players.map Player.id)
    (hkeys : m.map Prod.fst = t.players.map Player.id)
    (hsp : 0 ≤ sidePot) :
    sumVals (distributePot t m winners sidePot) = sumVals m + sidePot := by
  have hk0 : 0 < winners.length := List.length_pos.mpr hw
  have hndm : (m.map Prod.fst).Nodup := by rw [hkeys]; exact hpn
  have hsubm : ∀ w ∈ winners, w.id ∈ m.map Prod.fst := by
    intro w hwmem; rw [hkeys]; exact hsubp w hwmem
  have hsub' : ∀ i ∈ winners.map Player.id, i ∈ t.players.map Player.id := by
    intro i hi
    obtain ⟨w, hwmem, rfl⟩ := List.mem_map.mp hi
    exact hsubp w hwmem
  have hperm := orderBySeatAfterDealer_perm t (winners.map Player.id) hpn hsub' hwn
  have hlen : (orderBySeatAfterDealer t (winners.map Player.id)).length = winners.length := by
    rw [hperm.length_eq, List.length_map]
  have hm1sum := sumVals_foldl_bump_players winners m
    ((sidePot.toNat / winners.length : Nat) : Int) hndm hsubm
  have hm1keys := keys_foldl_bump_any winners Player.id m
    ((sidePot.toNat / winners.length : Nat) : Int)
  have hdm := Nat.div_add_mod sidePot.toNat winners.length
  simp only [distributePot]
  by_cases hr : 0 < sidePot.toNat % winners.length
  · rw [if_pos hr]
    simp only [distributeRemainder]
    have hrle : sidePot.toNat % winners.length ≤
        (orderBySeatAfterDealer t (winners.map Player.id)).length := by
      rw [hlen]; exact (Nat.mod_lt _ hk0).le
    rw [range_mod_bump_take _ _ hrle]
    rw [sumVals_foldl_bump_ids _ _ _ (by rw [hm1keys]; exact hndm) ?hsub]
    case hsub =>
      intro i hi
      rw [hm1keys, hkeys]
      exact hsub' i (hperm.subset (List.take_subset _ _ hi))
    rw [hm1sum]
    have htl : ((orderBySeatAfterDealer t (winners.map Player.id)).take
        (sidePot.toNat % winners.length)).length = sidePot.toNat % winners.length := by
      rw [List.length_take, hlen]
      exact Nat.min_eq_left (Nat.mod_lt _ hk0).le
    rw [htl, one_mul, add_assoc]
    congr 1
    conv_rhs => rw [← Int.toNat_of_nonneg hsp, ← hdm]
    push_cast
    ring
  · rw [if_neg hr]
    rw [hm1sum]
    have hr0 : sidePot.toNat % winners.length = 0 := Nat.eq_zero_of_not_pos hr
    congr 1
    conv_rhs => rw [← Int.toNat_of_nonneg hsp, ← hdm, hr0]
    push_cast
    ring

/-- One selection pass keeps the tied list, restarts it at `[p]`, or
appends `p` to it. -/
theorem selectStep_snd_cases (s : List (Nat × Score)) (acc : Option Score × List Player)
    (p : Player) :
    (selectStep s acc p).2 = acc.2 ∨ (selectStep s acc p).2 = [p] ∨
      (selectStep s acc p).2 = acc.2 ++ [p] := by
  unfold selectStep
  split
  · left; rfl
  · split
    · right; left; rfl
    · split
      · right; left; rfl
      · split
        · right; right; rfl
        · left; rfl

/-- The tied winners are a subsequence of the eligible list. -/
theorem selectWinners_sublist (s : List (Nat × Score)) (e : List Player) :
    ((selectWinners s e).2).Sublist e := by
  suffices h : ∀ (e : List Player) (acc : Option Score × List Player) (pre : List Player),
      acc.2.Sublist pre → ((e.foldl (selectStep s) acc).2).Sublist (pre ++ e) by
    simpa [selectWinners] using h e (none, []) [] (List.Sublist.refl [])
  intro e
  induction e with
  | nil =>
    intro acc pre h
    simpa using h
  | cons p rest ih =>
    intro acc pre h
    rw [List.foldl_cons]
    have hstep : ((selectStep s acc p).2).Sublist (pre ++ [p]) := by
      rcases selectStep_snd_cases s acc p with hc | hc | hc
      · rw [hc]; exact h.trans (List.sublist_append_left _ _)
      · rw [hc]; exact List.sublist_append_right _ _
      · rw [hc]; exact List.Sublist.append h (List.Sublist.refl _)
    simpa [List.append_assoc] using ih (selectStep s acc p) (pre ++ [p]) hstep

/-- One selection pass never empties a nonempty tied list. -/
theorem selectStep_snd_ne_nil (s : List (Nat × Score)) (acc : Option Score × List Player)
    (p : Player) (h : acc.2 ≠ []) : (selectStep s acc p).2 ≠ [] := by
  rcases selectStep_snd_cases s acc p with hc | hc | hc
  · rw [hc]; exact h
  · rw [hc]; simp
  · rw [hc]; simp

/-- Scored eligible contenders always produce at least one winner. -/
theorem selectWinners_ne_nil (s : List (Nat × Score)) (e : List Player)
    (he : e ≠ []) (hsome : ∀ p ∈ e, (List.lookup p.id s).isSome = true) :
    (selectWinners s e).2 ≠ [] := by
  have haux : ∀ (rest : List Player) (acc : Option Score × List Player), acc.2 ≠ [] →
      ((rest.foldl (selectStep s) acc).2) ≠ [] := by
    intro rest
    induction rest with
    | nil => exact fun acc h => h
    | cons q qs ih =>
      intro acc h
      rw [List.foldl_cons]
      exact ih _ (selectStep_snd_ne_nil s acc q h)
  cases e with
  | nil => exact absurd rfl he
  | cons q qs =>
    obtain ⟨sc, hsc⟩ := Option.isSome_iff_exists.mp (hsome q (List.mem_cons_self _ _))
    unfold selectWinners
    rw [List.foldl_cons]
    refine haux qs _ ?_
    simp [selectStep, hsc]

/-- The marginal-pot identity: raising the clamp from `prev` to the next
level `L` adds `(L - prev)` for each entry at or above `L`, provided no
entry lies strictly between the two levels. -/
theorem sum_min_step (ps : List Int) (prev L : Int) (hpl : prev ≤ L)
    (h : ∀ x ∈ ps, L ≤ x ∨ x ≤ prev) :
    (ps.map (fun x => min x L)).sum =
      (ps.map (fun x => min x prev)).sum +
        (L - prev) * ((ps.filter (fun x => L ≤ x)).length) := by
  induction ps with
  | nil => simp
  | cons x rest ih =>
    have hx := h x (List.mem_cons_self _ _)
    have hrest : ∀ y ∈ rest, L ≤ y ∨ y ≤ prev :=
      fun y hy => h y (List.mem_cons_of_mem _ hy)
    simp only [List.map_cons, List.sum_cons, List.filter_cons, decide_eq_true_eq]
    by_cases hLx : L ≤ x
    · rw [if_pos hLx, min_eq_right hLx, min_eq_right (hpl.trans hLx), ih hrest,
        List.length_cons]
      push_cast
      ring
    · have hxp : x ≤ prev := hx.resolve_left hLx
      rw [if_neg hLx, min_eq_left (hxp.trans hpl), min_eq_left hxp, ih hrest]
      ring

/-- Levels are exactly the contributors' distinct contribution totals. -/
theorem mem_levelsOf (t : Table) (x : Int) :
    x ∈ levelsOf t ↔ ∃ p ∈ contributorsOf t, p.totalContribution = x := by
  unfold levelsOf
  rw [(List.perm_insertionSort ascInt _).mem_iff, List.mem_dedup, List.mem_map]

/-- The level list has no duplicates. -/
theorem levelsOf_nodup (t : Table) : (levelsOf t).Nodup := by
  unfold levelsOf
  exact (List.perm_insertionSort ascInt _).symm.nodup (List.nodup_dedup _)

/-- The level list is strictly increasing. -/
theorem levelsOf_sorted_lt (t : Table) : List.Pairwise (· < ·) (levelsOf t) := by
  have hs : List.Pairwise ascInt (levelsOf t) := by
    unfold levelsOf
    exact List.sorted_insertionSort ascInt _
  have hnd : List.Pairwise (fun a b => a ≠ b) (levelsOf t) := levelsOf_nodup t
  exact (hs.and hnd).imp (fun hab => lt_of_le_of_ne hab.1 hab.2)

/-- When the marginal side pot is positive and eligible winners exist,
the level step distributes the side pot and carries the level. -/
theorem payoutStep_eq (t : Table) (scoreById : List (Nat × Score))
    (prevAcc : Int × List (Nat × Int)) (L : Int)
    (hsp : 0 < (L - prevAcc.1) *
      (((contributorsOf t).filter (fun p => L ≤ p.totalContribution)).length : Int))
    (hel : ((contributorsOf t).filter (fun p => L ≤ p.totalContribution)).filter
      (fun p => (List.lookup p.id scoreById).isSome) ≠ [])
    (hwn : (selectWinners scoreById
      (((contributorsOf t).filter (fun p => L ≤ p.totalContribution)).filter
        (fun p => (List.lookup p.id scoreById).isSome))).2 ≠ []) :
    payoutStep t scoreById prevAcc L =
      (L, distributePot t prevAcc.2
        ((selectWinners scoreById
          (((contributorsOf t).filter (fun p => L ≤ p.totalContribution)).filter
            (fun p => (List.lookup p.id scoreById).isSome))).2)
        ((L - prevAcc.1) *
          (((contributorsOf t).filter (fun p => L ≤ p.totalContribution)).length))) := by
  simp only [payoutStep]
  rw [if_neg (not_le.mpr hsp)]
  rw [if_neg (fun h => hel (List.isEmpty_iff.mp h))]
  rw [if_neg (fun h => hwn (List.isEmpty_iff.mp h))]

/-- The level-loop invariant: if the payout map is keyed by the seated
players and totals the contributions clamped at the previous level, and
the pending levels are exactly the uncovered contribution totals in
strictly ascending order with an eligible contender at each, then the
loop ends with the payout total equal to the contributors' total. -/
theorem payouts_fold_inv (t : Table) (scoreById : List (Nat × Score))
    (hpn : (t.players.map Player.id).Nodup) :
    ∀ (ls : List Int) (prev : Int) (acc : List (Nat × Int)),
      acc.map Prod.fst = t.players.map Player.id →
      sumVals acc = ((contributorsOf t).map (fun p => min p.totalContribution prev)).sum →
      (∀ p ∈ contributorsOf t, p.totalContribution ≤ prev ∨ p.totalContribution ∈ ls) →
      (∀ L ∈ ls, prev < L) →
      List.Pairwise (· < ·) ls →
      (∀ L ∈ ls, ∃ p ∈ contributorsOf t,
          L ≤ p.totalContribution ∧ (List.lookup p.id scoreById).isSome = true) →
      sumVals ((ls.foldl (payoutStep t scoreById) (prev, acc)).2) =
        ((contributorsOf t).map Player.totalContribution).sum := by
  intro ls
  induction ls with
  | nil =>
    intro prev acc _ hsum hcov _ _ _
    rw [List.foldl_nil, hsum]
    refine congrArg List.sum (List.map_congr_left ?_)
    intro p hp
    exact min_eq_left ((hcov p hp).resolve_right (by simp))
  | cons L rest ih =>
    intro prev acc hkeys hsum hcov hgt hpw hcont
    rw [List.foldl_cons]
    have hprevL : prev < L := hgt L (List.mem_cons_self _ _)
    obtain ⟨p0, hp0mem, hp0ge, hp0some⟩ := hcont L (List.mem_cons_self _ _)
    have hp0inv : p0 ∈ (contributorsOf t).filter (fun p => L ≤ p.totalContribution) :=
      List.mem_filter.mpr ⟨hp0mem, by simpa using hp0ge⟩
    have hinvlen : (0 : Int) <
        ((contributorsOf t).filter (fun p => L ≤ p.totalContribution)).length := by
      exact_mod_cast List.length_pos.mpr (List.ne_nil_of_mem hp0inv)
    have hsp : 0 < (L - prev) *
        (((contributorsOf t).filter (fun p => L ≤ p.totalContribution)).length : Int) :=
      mul_pos (sub_pos.mpr hprevL) hinvlen
    have hp0el : p0 ∈ ((contributorsOf t).filter (fun p => L ≤ p.totalContribution)).filter
        (fun p => (List.lookup p.id scoreById).isSome) :=
      List.mem_filter.mpr ⟨hp0inv, hp0some⟩
    have helne : ((contributorsOf t).filter (fun p => L ≤ p.totalContribution)).filter
        (fun p => (List.lookup p.id scoreById).isSome) ≠ [] :=
      List.ne_nil_of_mem hp0el
    have hwne : (selectWinners scoreById
        (((contributorsOf t).filter (fun p => L ≤ p.totalContribution)).filter
          (fun p => (List.lookup p.id scoreById).isSome))).2 ≠ [] := by
      refine selectWinners_ne_nil _ _ helne ?_
      intro q hq
      exact (List.mem_filter.mp hq).2
    rw [payoutStep_eq t scoreById (prev, acc) L hsp helne hwne]
    have hwsub : ((selectWinners scoreById
        (((contributorsOf t).filter (fun p => L ≤ p.totalContribution)).filter
          (fun p => (List.lookup p.id scoreById).isSome))).2).Sublist t.players :=
      (selectWinners_sublist _ _).trans ((List.filter_sublist _).trans
        ((List.filter_sublist _).trans (List.filter_sublist _)))
    refine ih L _ ?_ ?_ ?_ ?_ ?_ ?_
    · rw [keys_distributePot]
      exact hkeys
    · rw [sumVals_distributePot t acc _ _ hwne
        (List.Nodup.sublist (hwsub.map Player.id) hpn) hpn
        (fun w hw => List.mem_map_of_mem _ (hwsub.subset hw)) hkeys (le_of_lt hsp)]
      rw [hsum]
      have hptws : ∀ x ∈ (contributorsOf t).map Player.totalContribution,
          L ≤ x ∨ x ≤ prev := by
        intro x hx
        obtain ⟨p, hp, rfl⟩ := List.mem_map.mp hx
        rcases hcov p hp with h | h
        · right; exact h
        · rcases List.mem_cons.mp h with h | h
          · left; exact le_of_eq h.symm
          · left; exact le_of_lt ((List.pairwise_cons.mp hpw).1 _ h)
      have hsms := sum_min_step ((contributorsOf t).map Player.totalContribution) prev L
        (le_of_lt hprevL) hptws
      have hmapL : ((contributorsOf t).map Player.totalContribution).map
          (fun x => min x L) = (contributorsOf t).map
          (fun p => min p.totalContribution L) := by
        rw [List.map_map]
        rfl
      have hmapP : ((contributorsOf t).map Player.totalContribution).map
          (fun x => min x prev) = (contributorsOf t).map
          (fun p => min p.totalContribution prev) := by
        rw [List.map_map]
        rfl
      have hfl : ((contributorsOf t).map Player.totalContribution).filter
          (fun x => L ≤ x) = ((contributorsOf t).filter
          (fun p => L ≤ p.totalContribution)).map Player.totalContribution := by
        rw [List.filter_map]
        rfl
      rw [hmapL, hmapP, hfl, List.length_map] at hsms
      exact hsms.symm
    · intro p hp
      rcases hcov p hp with h | h
      · left; exact h.trans (le_of_lt hprevL)
      · rcases List.mem_cons.mp h with h | h
        · left; exact le_of_eq h
        · right; exact h
    · exact fun x hx => (List.pairwise_cons.mp hpw).1 x hx
    · exact (List.pairwise_cons.mp hpw).2
    · exact fun x hx => hcont x (List.mem_cons_of_mem _ hx)

/-- Dropping the zero-contribution seats does not change the total. -/
theorem sum_contributions_filter (ps : List Player)
    (h : ∀ p ∈ ps, 0 ≤ p.totalContribution) :
    ((ps.filter (fun p => 0 < p.totalContribution)).map Player.totalContribution).sum =
      (ps.map Player.totalContribution).sum := by
  induction ps with
  | nil => rfl
  | cons p rest ih =>
    have hp := h p (List.mem_cons_self _ _)
    have hr : ∀ q ∈ rest, 0 ≤ q.totalContribution :=
      fun q hq => h q (List.mem_cons_of_mem _ hq)
    simp only [List.filter_cons, List.map_cons, List.sum_cons, decide_eq_true_eq]
    by_cases hpos : 0 < p.totalContribution
    · rw [if_pos hpos]
      simp only [List.map_cons, List.sum_cons]
      rw [ih hr]
    · rw [if_neg hpos, ih hr, le_antisymm (not_lt.mp hpos) hp, zero_add]

/-- **C5.**  At showdown, `calculatePayouts` hands out exactly the
chips put in: when the seated ids are distinct, no contribution is
negative, and every distinct contribution level has a contender at or
above it with a score, the payout values sum to the players' total
contribution. -/
theorem payouts_conserve_contributions (t : Table) (scoreById : List (Nat × Score))
    (hpn : (t.players.map Player.id).Nodup)
    (htc : ∀ p ∈ t.players, 0 ≤ p.totalContribution)
    (hlev : ∀ L ∈ levelsOf t, ∃ p ∈ contributorsOf t,
        L ≤ p.totalContribution ∧ (List.lookup p.id scoreById).isSome = true) :
    ((calculatePayouts t scoreById).map (fun kv => kv.2)).sum =
      (t.players.map Player.totalContribution).sum := by
  have h0keys : (t.players.map (fun p => (p.id, (0 : Int)))).map Prod.fst =
      t.players.map Player.id := by
    rw [List.map_map]
    rfl
  have h0sum : sumVals (t.players.map (fun p => (p.id, (0 : Int)))) =
      ((contributorsOf t).map (fun p => min p.totalContribution 0)).sum := by
    have l1 : sumVals (t.players.map (fun p => (p.id, (0 : Int)))) = 0 := by
      unfold sumVals
      rw [List.map_map]
      refine List.sum_eq_zero ?_
      intro x hx
      obtain ⟨p, _, rfl⟩ := List.mem_map.mp hx
      rfl
    have l2 : ((contributorsOf t).map (fun p => min p.totalContribution 0)).sum = 0 := by
      refine List.sum_eq_zero ?_
      intro x hx
      obtain ⟨p, hp, rfl⟩ := List.mem_map.mp hx
      have hppos : (0 : Int) < p.totalContribution := by
        have := (List.mem_filter.mp hp).2
        simpa using this
      exact min_eq_right (le_of_lt hppos)
    rw [l1, l2]
  have hcov0 : ∀ p ∈ contributorsOf t,
      p.totalContribution ≤ 0 ∨ p.totalContribution ∈ levelsOf t := by
    intro p hp
    right
    exact (mem_levelsOf t _).mpr ⟨p, hp, rfl⟩
  have hgt0 : ∀ L ∈ levelsOf t, (0 : Int) < L := by
    intro L hL
    obtain ⟨p, hp, hpe⟩ := (mem_levelsOf t L).mp hL
    have hppos : (0 : Int) < p.totalContribution := by
      have := (List.mem_filter.mp hp).2
      simpa using this
    rw [← hpe]
    exact hppos
  have hinv := payouts_fold_inv t scoreById hpn (levelsOf t) 0
    (t.players.map (fun p => (p.id, (0 : Int)))) h0keys h0sum hcov0 hgt0
    (levelsOf_sorted_lt t) hlev
  have hcp : ((calculatePayouts t scoreById).map (fun kv => kv.2)).sum =
      sumVals (((levelsOf t).foldl (payoutStep t scoreById)
        (0, t.players.map (fun p => (p.id, (0 : Int))))).2) := rfl
  rw [hcp, hinv]
  exact sum_contributions_filter t.players htc

/-- Witness for C5: on the fixture flop table every seat has contributed
20 and all three contenders are scored, so the payouts hand out the
whole 60-chip total. -/
theorem payouts_conserve_contributions_witness :
    ((underRaiseTable.players.map Player.id).Nodup ∧
      (∀ p ∈ underRaiseTable.players, 0 ≤ p.totalContribution) ∧
      (∀ L ∈ levelsOf underRaiseTable, ∃ p ∈ contributorsOf underRaiseTable,
        L ≤ p.totalContribution ∧
          (List.lookup p.id
            [(1, (⟨1, [14]⟩ : Score)), (2, ⟨1, [13]⟩), (3, ⟨1, [12]⟩)]).isSome = true)) ∧
    ((calculatePayouts underRaiseTable
        [(1, (⟨1, [14]⟩ : Score)), (2, ⟨1, [13]⟩), (3, ⟨1, [12]⟩)]).map
          (fun kv => kv.2)).sum =
      (underRaiseTable.players.map Player.totalContribution).sum :=
  ⟨⟨by decide, by decide, by decide⟩,
   payouts_conserve_contributions underRaiseTable
     [(1, (⟨1, [14]⟩ : Score)), (2, ⟨1, [13]⟩), (3, ⟨1, [12]⟩)]
     (by decide) (by decide) (by decide)⟩

end Poker
